import Mathlib

/-!
Shallow embedding of the section-resize layout engine in
`src/resizer/distributors/roomsublist2.js` (classes `Layout` and `Handle`).

Modelling conventions:
* JS numbers are modelled by `ℚ` (exact arithmetic; every constant and
  operation of the source is rational).  A JS number that may be non-finite
  is modelled by `Option ℚ` (`none` = NaN or ±Infinity, i.e. the values
  rejected by `Number.isFinite`).
* JS objects used as string-keyed maps (`_collapsedState`, `_sectionHeights`)
  are modelled by association lists `List (String × _)`; reading an absent
  key gives `none` (JS `undefined`).  Reading an absent collapsed flag is
  coerced to `false` exactly as JS truthiness does; reading an absent height
  inside arithmetic is modelled by the default `0` and the theorems that
  depend on those reads carry a `HeightsPresent` hypothesis making the
  default irrelevant.
* The recursive `_applyOverflow` is defined with an explicit fuel parameter
  (`applyOverflowF`), returning `none` when fuel runs out at a point where
  the source would recurse.  `applyOverflow` runs it with fuel equal to the
  number of section indices, which `applyOverflowF_isSome` proves sufficient.
  In addition to the source's return value (the residual overflow) and the
  mutated `_heights` array, the model returns the `unclampedSections` list of
  the final recursion level, so that the stopping condition of the source
  (`Math.abs(overflow) > 1.0 && unclampedSections.length > 0` being false)
  can be stated about the result.
* `_relayout`'s single guarded re-run (`clamped = true`) is modelled
  non-recursively: the clamped run is `relayoutCore` again (it cannot recurse
  further because `clamped` is true in the source).
-/

namespace RoomSubList2

/-- `const handleHeight = 1;` (line 20). -/
def handleHeight : ℚ := 1

/-- `function clamp(height, min, max)` (lines 22-26), with the source's test
order: the `max` test comes first. -/
def clamp (height lo hi : ℚ) : ℚ :=
  if hi < height then hi
  else if height < lo then lo
  else height

/-- One entry of the section list: `{id, count}`. -/
structure Sec where
  id : String
  count : Nat
  deriving DecidableEq, Repr

/-- The mutable state of a `Layout` object (constructor, lines 29-44).  The
`_applyHeight` callback is external output and carries no state, so it is not
modelled. -/
structure Layout where
  sections : List Sec
  collapsedState : List (String × Bool)
  availableHeight : ℚ
  sectionHeights : List (String × ℚ)
  heights : List ℚ
  deriving DecidableEq, Repr

/-- Assignment `m[k] = v` on a JS object modelled as an association list:
replace the first binding of `k`, or append one. -/
def setEntry {β : Type} (m : List (String × β)) (k : String) (v : β) :
    List (String × β) :=
  match m with
  | [] => [(k, v)]
  | (k', v') :: rest =>
    if k' = k then (k, v) :: rest else (k', v') :: setEntry rest k v

/-- Truthiness of `this._collapsedState[id]`: an absent key (`undefined`) is
falsy. -/
def Layout.collapsed (L : Layout) (id : String) : Bool :=
  (List.lookup id L.collapsedState).getD false

/-- `this._sections[i]`; out-of-range access never occurs at the call sites
proved about, the default section is arbitrary. -/
def Layout.sectionAt (L : Layout) (i : Nat) : Sec :=
  L.sections.getD i ⟨"", 0⟩

/-- `_sectionHeight(count)` (lines 138-140):
`36 + (count === 0 ? 0 : 4 + count * 34)`. -/
def sectionHeight (count : Nat) : ℚ :=
  36 + (if count = 0 then 0 else 4 + (count : ℚ) * 34)

/-- `_getMaxHeight(i)` (lines 126-136). -/
def Layout.getMaxHeight (L : Layout) (i : Nat) : ℚ :=
  if L.collapsed (L.sectionAt i).id then sectionHeight 0 else 100000

/-- `_getMinHeight(i)` (lines 142-147). -/
def Layout.getMinHeight (L : Layout) (i : Nat) : ℚ :=
  let maxItems : Nat := if L.collapsed (L.sectionAt i).id then 0 else 1
  sectionHeight (min (L.sectionAt i).count maxItems)

/-- The reduce in `_getAvailableHeight` (lines 102-105). -/
def Layout.nonCollapsedSectionCount (L : Layout) : Nat :=
  L.sections.foldl (fun n s => n + (if L.collapsed s.id then 0 else 1)) 0

/-- `_getAvailableHeight()` (lines 101-107).  The subtraction is integer
arithmetic in JS and may go through `-1` when no section is non-collapsed. -/
def Layout.getAvailableHeight (L : Layout) : ℚ :=
  L.availableHeight - ((L.nonCollapsedSectionCount : ℚ) - 1) * handleHeight

/-- `this._sectionHeights[id]` read inside arithmetic; `0` stands for the
absent-key case (see module docstring). -/
def Layout.storedHeight (L : Layout) (id : String) : ℚ :=
  (List.lookup id L.sectionHeights).getD 0

/-- `this._sections.map((section) => this._sectionHeights[section.id])`,
used both in `_applyNewSize` (line 115) and `_relayout` (line 211). -/
def Layout.heightsOf (L : Layout) : List ℚ :=
  L.sections.map fun s => L.storedHeight s.id

/-- JS `Array.prototype.findIndex`: index of the first match, `-1` if none. -/
def findIndexO (p : Sec → Bool) : List Sec → Option Nat
  | [] => none
  | s :: rest => if p s then some 0 else (findIndexO p rest).map (· + 1)

/-- `_getSectionIndex(id)` (lines 122-124). -/
def Layout.getSectionIndex (L : Layout) (id : String) : Int :=
  match findIndexO (fun s => s.id = id) L.sections with
  | some n => (n : Int)
  | none => -1

/-- The `for (const i of sections)` loop of `_applyOverflow` (lines 154-176).
State: remaining indices, running `overflow`, current `overflowPerSection`
(constant in blend mode, reassigned to the residual otherwise), the
`_heights` array, the accumulated `unclampedSections`.  The non-blend early
`break` returns immediately. -/
def Layout.overflowLoop (L : Layout) (blend : Bool) :
    List Nat → ℚ → ℚ → List ℚ → List Nat → ℚ × List ℚ × List Nat
  | [], overflow, _, heights, unclamped => (overflow, heights, unclamped)
  | i :: rest, overflow, per, heights, unclamped =>
    let hi := heights.getD i 0
    let target := hi - per
    let newHeight := clamp target (L.getMinHeight i) (L.getMaxHeight i)
    let unclamped' := if newHeight = target then unclamped ++ [i] else unclamped
    let overflow' := overflow - (hi - newHeight)
    let heights' := heights.set i newHeight
    if blend then L.overflowLoop blend rest overflow' per heights' unclamped'
    else if |overflow'| < 1 then (overflow', heights', unclamped')
    else L.overflowLoop blend rest overflow' overflow' heights' unclamped'

/-- The initial `overflowPerSection` of `_applyOverflow` (line 156):
`blend ? (overflow / sections.length) : overflow`. -/
def overflowPerSection (blend : Bool) (overflow : ℚ) (n : Nat) : ℚ :=
  if blend then overflow / (n : ℚ) else overflow

/-- `_applyOverflow(overflow, sections, blend)` (lines 149-184) with explicit
fuel bounding the recursion depth of line 180; `none` means the fuel ran out
where the source would have recursed. -/
def Layout.applyOverflowF (L : Layout) :
    Nat → ℚ → List Nat → Bool → List ℚ → Option (ℚ × List ℚ × List Nat)
  | fuel, overflow, idxs, blend, heights =>
    let r := L.overflowLoop blend idxs overflow
      (overflowPerSection blend overflow idxs.length) heights []
    if 1 < |r.1| ∧ r.2.2 ≠ [] then
      match fuel with
      | 0 => none
      | fuel' + 1 => L.applyOverflowF fuel' r.1 r.2.2 blend r.2.1
    else some r

/-- `_applyOverflow` run with fuel `idxs.length`, which is always enough
(`applyOverflowF_isSome`); the default is never reached. -/
def Layout.applyOverflow (L : Layout) (overflow : ℚ) (idxs : List Nat)
    (blend : Bool) (heights : List ℚ) : ℚ × List ℚ × List Nat :=
  (L.applyOverflowF idxs.length overflow idxs blend heights).getD
    (overflow, heights, [])

/-- The `forEach` of `_commitHeights` (lines 265-269): successive
`this._sectionHeights[section.id] = this._heights[i]` assignments, with `i`
the running index. -/
def commitFrom (secs : List Sec) (hts : List ℚ) (i : Nat)
    (m : List (String × ℚ)) : List (String × ℚ) :=
  match secs with
  | [] => m
  | s :: rest => commitFrom rest hts (i + 1) (setEntry m s.id (hts.getD i 0))

/-- `_commitHeights()` (lines 265-269). -/
def Layout.commitHeights (L : Layout) : Layout :=
  { L with sectionHeights := commitFrom L.sections L.heights 0 L.sectionHeights }

/-- The single overflow pass performed by `_applyNewSize` (lines 109-120):
`offset = newHeight - currHeight`, then
`_applyOverflow(-offset, [0..n-1], true)` on the committed heights. -/
def Layout.redistribution (L : Layout) : ℚ × List ℚ × List Nat :=
  let offset := L.getAvailableHeight - L.heightsOf.sum
  L.applyOverflow (-offset) (List.range L.sections.length) true L.heightsOf

/-- `_applyNewSize()` (lines 109-120); `_applyHeights` only invokes the
external callback and does not change the modelled state. -/
def Layout.applyNewSize (L : Layout) : Layout :=
  Layout.commitHeights { L with heights := (L.redistribution).2.1 }

/-- `setAvailableHeight(newSize)` (lines 46-50) for a finite argument; the
assignment is unconditional in the source (see `setAvailableHeightStored`
for the non-finite case). -/
def Layout.setAvailableHeight (L : Layout) (newSize : ℚ) : Layout :=
  Layout.applyNewSize { L with availableHeight := newSize }

/-- `collapseSection(id)` (lines 58-61). -/
def Layout.collapseSection (L : Layout) (id : String) : Layout :=
  Layout.applyNewSize
    { L with collapsedState := setEntry L.collapsedState id true }

/-- A `Handle` (lines 272-288): anchor index as returned by
`_getSectionIndex` (so possibly `-1`) and the open-time height
`this._sectionHeights[id]` (possibly `undefined`). -/
structure Handle where
  anchor : Int
  initialHeight : Option ℚ
  deriving DecidableEq, Repr

/-- `openHandle(id)` (lines 96-99).  Note: no failure path; an unknown id
produces anchor `-1` and an absent initial height. -/
def Layout.openHandle (L : Layout) (id : String) : Handle :=
  ⟨L.getSectionIndex id, List.lookup id L.sectionHeights⟩

/-- `_rebalanceAbove(anchor, overflowAbove)` (lines 186-195); the `blend`
argument of `_applyOverflow` is omitted in the source, hence `false`.  The
`_heights` array is threaded explicitly. -/
def Layout.rebalanceAbove (L : Layout) (anchor : Nat) (overflowAbove : ℚ)
    (heights : List ℚ) : ℚ × List ℚ :=
  if 1 < |overflowAbove| then
    let r := L.applyOverflow overflowAbove (List.range anchor).reverse false heights
    (r.1, r.2.1)
  else (overflowAbove, heights)

/-- `_rebalanceBelow(anchor, overflowBelow)` (lines 197-206). -/
def Layout.rebalanceBelow (L : Layout) (anchor : Nat) (overflowBelow : ℚ)
    (heights : List ℚ) : ℚ × List ℚ :=
  if 1 < |overflowBelow| then
    let r := L.applyOverflow overflowBelow
      (List.range' (anchor + 1) (L.sections.length - (anchor + 1))) false heights
    (r.1, r.2.1)
  else (overflowBelow, heights)

/-- Lines 211-236 of `_relayout`: rebuild `_heights` from the committed map,
split the offset into above/below overflow, clamp the anchor, rebalance.
Returns (rebalanced overflowAbove, rebalanced overflowBelow, heights). -/
def Layout.relayoutCore (L : Layout) (anchor : Nat) (offset : ℚ) :
    ℚ × ℚ × List ℚ :=
  let heights := L.heightsOf
  let maxHeight := L.getMaxHeight anchor
  let minHeight := L.getMinHeight anchor
  let h0 := heights.getD anchor 0
  let p : ℚ × ℚ :=
    if maxHeight < h0 + offset then ((maxHeight - h0) - offset, offset)
    else if h0 + offset < minHeight then ((minHeight - h0) - offset, offset)
    else (0, offset)
  let heights1 := heights.set anchor (clamp (h0 + offset) minHeight maxHeight)
  let a := L.rebalanceAbove anchor p.1 heights1
  let b := L.rebalanceBelow anchor p.2 a.2
  (a.1, b.1, b.2)

/-- `_relayout(anchor, offset, clamped = false)` (lines 210-255).  The first
component is the final `_heights`; the second is the source's return value
(`undefined` on full success, otherwise the corrected offset).  The guarded
re-run with `clamped = true` cannot recurse again, so it is one more
`relayoutCore`. -/
def Layout.relayout (L : Layout) (anchor : Nat) (offset : ℚ) :
    Layout × Option ℚ :=
  let r := L.relayoutCore anchor offset
  if 1 < |r.1| then
    ({ L with heights := (L.relayoutCore anchor (offset + r.1)).2.2 },
     some (offset + r.1))
  else if 1 < |r.2.1| then
    ({ L with heights := (L.relayoutCore anchor (offset - r.2.1)).2.2 },
     some (offset - r.2.1))
  else
    ({ L with heights := r.2.2 }, none)

/-- `Handle.setHeight(height)` (lines 279-282): relayout anchored at this
handle with offset `height - this._initialHeight`, then return `this`.
For a handle from a valid id the anchor is a natural number; `Int.toNat`
and `getD 0` only matter for the anchor `-1` / absent-height handles, whose
JS behavior (NaN propagation) is outside the claims proved here. -/
def Handle.setHeight (hdl : Handle) (L : Layout) (height : ℚ) :
    Layout × Handle :=
  ((L.relayout hdl.anchor.toNat (height - hdl.initialHeight.getD 0)).1, hdl)

/-- `Handle.finish()` (lines 284-287): commit and return `this`. -/
def Handle.finish (hdl : Handle) (L : Layout) : Layout × Handle :=
  (L.commitHeights, hdl)

/-- `expandSection(id, height)` (lines 52-56). -/
def Layout.expandSection (L : Layout) (id : String) (height : ℚ) : Layout :=
  let L1 := Layout.applyNewSize
    { L with collapsedState := setEntry L.collapsedState id false }
  let hdl := L1.openHandle id
  let r1 := hdl.setHeight L1 height
  (Handle.finish r1.2 r1.1).1

/-- The `heightChanged` test of `update` (line 66):
`Number.isFinite(availableHeight) && availableHeight !== this._availableHeight`.
The argument is `Option ℚ` (`none` = non-finite). -/
def Layout.updateHeightChanged (L : Layout) (avh : Option ℚ) : Bool :=
  match avh with
  | some h => decide (h ≠ L.availableHeight)
  | none => false

/-- The state after lines 66-69 and 82 of `update`: possibly adopt the new
available height, then adopt the new section list. -/
def Layout.updateAdopted (L : Layout) (ss : List Sec) (avh : Option ℚ) :
    Layout :=
  let L1 := if L.updateHeightChanged avh then
    { L with availableHeight := avh.getD L.availableHeight } else L
  { L1 with sections := ss }

/-- The seeding `forEach` of `update` (lines 84-92): iterate the (new)
section list with index `i`; a section whose stored height is falsy
(absent key, or the number `0`) is assigned
`clamp(totalHeight / sections.length, minHeight(i), maxHeight(i))`.
`L` is the post-adoption layout (its `sections` are iterated; `totalHeight`
is passed in, computed once before the loop as in the source). -/
def seedFrom (L : Layout) (totalHeight : ℚ) :
    List Sec → Nat → List (String × ℚ) → List (String × ℚ)
  | [], _, m => m
  | s :: rest, i, m =>
    let m' := if (List.lookup s.id m).getD 0 = 0 then
        setEntry m s.id (clamp (totalHeight / (L.sections.length : ℚ))
          (L.getMinHeight i) (L.getMaxHeight i))
      else m
    seedFrom L totalHeight rest (i + 1) m'

/-- `_sectionHeights` after the seeding loop of `update` (lines 82-92). -/
def Layout.updateSeeded (L : Layout) (ss : List Sec) (avh : Option ℚ) :
    List (String × ℚ) :=
  let L2 := L.updateAdopted ss avh
  seedFrom L2 L2.getAvailableHeight L2.sections 0 L2.sectionHeights

/-- `update(sections, availableHeight)` (lines 63-94).  The source's
`sectionsChanged` test (length differs, or some position differs in id or
count) is exactly inequality of the two lists of `{id, count}` records. -/
def Layout.update (L : Layout) (ss : List Sec) (avh : Option ℚ) : Layout :=
  let heightChanged := L.updateHeightChanged avh
  let sectionsChanged : Bool := decide (ss ≠ L.sections)
  if !heightChanged && !sectionsChanged then L
  else
    Layout.applyNewSize
      { L.updateAdopted ss avh with sectionHeights := L.updateSeeded ss avh }

/-- A JS number as seen by the `Number.isFinite` check: finite, or one of
NaN / Infinity / -Infinity. -/
inductive JSNum where
  | finite (q : ℚ)
  | nonFinite
  deriving DecidableEq, Repr

/-- The stored `_availableHeight` field right after `setAvailableHeight`
(lines 46-50): the source assigns `this._availableHeight = newSize`
unconditionally, with no finiteness check, before running `_applyNewSize`. -/
def setAvailableHeightStored (_current : JSNum) (newSize : JSNum) : JSNum :=
  newSize

/-- The ids of the section list are pairwise distinct. -/
def idsNodup (ss : List Sec) : Prop := (ss.map Sec.id).Nodup

/-- Every current section has a stored committed height (no `undefined`
reads in `_applyNewSize`). -/
def Layout.HeightsPresent (L : Layout) : Prop :=
  ∀ s ∈ L.sections, (List.lookup s.id L.sectionHeights).isSome = true

/-- Every section's committed height lies within
`[_getMinHeight i, _getMaxHeight i]`. -/
def Layout.InBounds (L : Layout) : Prop :=
  ∀ i, i < L.sections.length →
    L.getMinHeight i ≤ L.storedHeight (L.sectionAt i).id ∧
    L.storedHeight (L.sectionAt i).id ≤ L.getMaxHeight i

/-- Sum of the committed heights over the current section list (the
`currHeight` reduce of `_applyNewSize`, lines 111-113). -/
def Layout.committedSum (L : Layout) : ℚ := L.heightsOf.sum

/-- Seed value as worded by the claim for C4:
`clamp(availableHeight / sectionCount, minHeight, maxHeight)` with the raw
available height (the source instead divides
`availableHeight - (nonCollapsedSectionCount - 1) * handleHeight`). -/
def claimSeedValue (availableHeight : ℚ) (sectionCount : Nat) (lo hi : ℚ) :
    ℚ :=
  clamp (availableHeight / (sectionCount : ℚ)) lo hi

/-- A freshly constructed layout: no sections, no stored heights. -/
def emptyLayout : Layout := ⟨[], [], 0, [], []⟩

/-- A two-section layout with in-bounds committed heights. -/
def sampleLayout : Layout :=
  ⟨[⟨"a", 3⟩, ⟨"b", 5⟩], [], 400, [("a", 200), ("b", 199)], [200, 199]⟩

/-- A layout whose map stores the falsy height `0` for section `"a"`. -/
def zeroSeedLayout : Layout := ⟨[], [], 0, [("a", 0), ("b", 50)], []⟩

/-- A layout with a collapsed zero-item section `"a"`. -/
def collapsedLayout : Layout :=
  ⟨[⟨"a", 0⟩, ⟨"b", 5⟩], [("a", true)], 300, [("a", 36), ("b", 263)], []⟩

/-! ### Basic helper lemmas -/

theorem clamp_mem {lo hi : ℚ} (x : ℚ) (h : lo ≤ hi) :
    lo ≤ clamp x lo hi ∧ clamp x lo hi ≤ hi := by
  unfold clamp
  split_ifs with h1 h2 <;> constructor <;> linarith

theorem clamp_const (x c : ℚ) : clamp x c c = c := by
  unfold clamp
  split_ifs with h1 h2 <;> linarith

theorem getD_set_eq : ∀ (l : List ℚ) (i : Nat) (v d : ℚ), i < l.length →
    (l.set i v).getD i d = v
  | [], i, v, d, h => absurd h (by simp)
  | _ :: _, 0, _, _, _ => rfl
  | a :: t, i + 1, v, d, h => by
    have := getD_set_eq t i v d (by simpa using h)
    simpa [List.set] using this

theorem getD_set_ne : ∀ (l : List ℚ) (i j : Nat) (v d : ℚ), i ≠ j →
    (l.set i v).getD j d = l.getD j d
  | [], _, _, _, _, _ => by simp
  | a :: t, 0, 0, v, d, h => absurd rfl h
  | a :: t, 0, j + 1, v, d, _ => rfl
  | a :: t, i + 1, 0, v, d, _ => rfl
  | a :: t, i + 1, j + 1, v, d, h => by
    have := getD_set_ne t i j v d (fun e => h (by rw [e]))
    simpa [List.set] using this

theorem sum_set : ∀ (l : List ℚ) (i : Nat) (v : ℚ), i < l.length →
    (l.set i v).sum = l.sum - l.getD i 0 + v
  | [], i, v, h => absurd h (by simp)
  | a :: t, 0, v, _ => by
    simp [List.set, List.sum_cons]
    ring
  | a :: t, i + 1, v, h => by
    have := sum_set t i v (by simpa using h)
    simp only [List.set, List.sum_cons, this]
    have : (a :: t).getD (i + 1) 0 = t.getD i 0 := rfl
    rw [this]
    ring

theorem lookup_nil {β : Type} (k : String) :
    List.lookup k ([] : List (String × β)) = none := rfl

theorem lookup_cons {β : Type} (k a : String) (v : β)
    (t : List (String × β)) :
    List.lookup k ((a, v) :: t) = if a = k then some v else List.lookup k t
    := by
  by_cases h : a = k
  · subst h
    simp [List.lookup]
  · have hb : (k == a) = false := beq_eq_false_iff_ne.mpr fun e => h e.symm
    simp [List.lookup, hb, h]

theorem lookup_setEntry_self {β : Type} (m : List (String × β)) (k : String)
    (v : β) : List.lookup k (setEntry m k v) = some v := by
  induction m with
  | nil => simp [setEntry, List.lookup]
  | cons p rest ih =>
    obtain ⟨k', v'⟩ := p
    by_cases h : k' = k
    · simp [setEntry, h, List.lookup]
    · have hb : (k == k') = false := beq_eq_false_iff_ne.mpr fun e => h e.symm
      simp [setEntry, h, List.lookup, hb, ih]

theorem lookup_setEntry_ne {β : Type} (m : List (String × β)) (k k' : String)
    (v : β) (h : k' ≠ k) :
    List.lookup k' (setEntry m k v) = List.lookup k' m := by
  have hb : (k' == k) = false := beq_eq_false_iff_ne.mpr h
  induction m with
  | nil => simp [setEntry, List.lookup, hb]
  | cons p rest ih =>
    obtain ⟨a, b⟩ := p
    by_cases ha : a = k
    · subst ha
      simp [setEntry, List.lookup, hb]
    · by_cases h' : k' = a
      · subst h'
        simp [setEntry, ha, List.lookup]
      · have hb' : (k' == a) = false := beq_eq_false_iff_ne.mpr h'
        simp [setEntry, ha, List.lookup, hb', ih]

theorem getD_map_sections (L : Layout) (f : Sec → ℚ) :
    ∀ i, i < L.sections.length →
      (L.sections.map f).getD i 0 = f (L.sectionAt i) := by
  intro i hi
  unfold Layout.sectionAt
  rw [List.getD_eq_getElem?_getD, List.getElem?_map,
    List.getD_eq_getElem?_getD]
  rw [List.getElem?_eq_getElem hi]
  simp

theorem minHeight_le_maxHeight (L : Layout) (i : Nat) :
    L.getMinHeight i ≤ L.getMaxHeight i := by
  unfold Layout.getMinHeight Layout.getMaxHeight
  by_cases h : L.collapsed (L.sectionAt i).id
  · simp [h]
  · simp only [h, if_false, Bool.false_eq_true]
    have : min (L.sectionAt i).count 1 ≤ 1 := min_le_right _ _
    unfold sectionHeight
    split_ifs with h0
    · norm_num
    · have : ((min (L.sectionAt i).count 1 : Nat) : ℚ) ≤ 1 := by
        exact_mod_cast this
      nlinarith

/-! ### Lemmas about the `_applyOverflow` loop -/

/-- Height `j` lies within section `j`'s bounds. -/
def Layout.InB (L : Layout) (hs : List ℚ) (j : Nat) : Prop :=
  L.getMinHeight j ≤ hs.getD j 0 ∧ hs.getD j 0 ≤ L.getMaxHeight j

theorem overflowLoop_length (L : Layout) (blend : Bool) :
    ∀ (idxs : List Nat) (ov per : ℚ) (hs : List ℚ) (u : List Nat),
      (L.overflowLoop blend idxs ov per hs u).2.1.length = hs.length := by
  intro idxs
  induction idxs with
  | nil => intro ov per hs u; rfl
  | cons i rest ih =>
    intro ov per hs u
    simp only [Layout.overflowLoop]
    split_ifs <;> simp [ih, List.length_set]

theorem overflowLoop_not_mem (L : Layout) (blend : Bool) :
    ∀ (idxs : List Nat) (ov per : ℚ) (hs : List ℚ) (u : List Nat) (j : Nat),
      j ∉ idxs →
      (L.overflowLoop blend idxs ov per hs u).2.1.getD j 0 = hs.getD j 0 := by
  intro idxs
  induction idxs with
  | nil => intro ov per hs u j _; rfl
  | cons i rest ih =>
    intro ov per hs u j hj
    have hji : i ≠ j := fun e => hj (e ▸ List.mem_cons_self i rest)
    have hjr : j ∉ rest := fun hr => hj (List.mem_cons_of_mem i hr)
    have hset : ∀ v, (hs.set i v).getD j 0 = hs.getD j 0 := fun v =>
      getD_set_ne _ _ _ _ _ hji
    have ihj : ∀ (a b : ℚ) (c : List ℚ) (d : List Nat),
        (L.overflowLoop blend rest a b c d).2.1.getD j 0 = c.getD j 0 :=
      fun a b c d => ih a b c d j hjr
    simp only [Layout.overflowLoop]
    split_ifs <;> first
      | (rw [ihj]; exact hset _)
      | exact hset _

theorem overflowLoop_InB_or_unchanged (L : Layout) (blend : Bool) :
    ∀ (idxs : List Nat) (ov per : ℚ) (hs : List ℚ) (u : List Nat) (j : Nat),
      L.InB (L.overflowLoop blend idxs ov per hs u).2.1 j ∨
      (L.overflowLoop blend idxs ov per hs u).2.1.getD j 0 = hs.getD j 0 := by
  intro idxs
  induction idxs with
  | nil => intro ov per hs u j; right; rfl
  | cons i rest ih =>
    intro ov per hs u j
    have key : ∀ (ov' per' : ℚ) (u' : List Nat),
        L.InB (L.overflowLoop blend rest ov' per'
          (hs.set i (clamp (hs.getD i 0 - per) (L.getMinHeight i)
            (L.getMaxHeight i))) u').2.1 j ∨
        (L.overflowLoop blend rest ov' per'
          (hs.set i (clamp (hs.getD i 0 - per) (L.getMinHeight i)
            (L.getMaxHeight i))) u').2.1.getD j 0 = hs.getD j 0 := by
      intro ov' per' u'
      rcases ih ov' per'
        (hs.set i (clamp (hs.getD i 0 - per) (L.getMinHeight i)
          (L.getMaxHeight i))) u' j with h | h
      · exact Or.inl h
      · by_cases hij : i = j
        · subst hij
          by_cases hlen : i < hs.length
          · left
            refine ⟨?_, ?_⟩
            · rw [h, getD_set_eq _ _ _ _ hlen]
              exact (clamp_mem _ (minHeight_le_maxHeight L i)).1
            · rw [h, getD_set_eq _ _ _ _ hlen]
              exact (clamp_mem _ (minHeight_le_maxHeight L i)).2
          · right
            push_neg at hlen
            have h1 : (hs.set i (clamp (hs.getD i 0 - per) (L.getMinHeight i)
                (L.getMaxHeight i))).getD i 0 = 0 := by
              apply List.getD_eq_default
              rw [List.length_set]; exact hlen
            have h2 : hs.getD i 0 = 0 := List.getD_eq_default _ _ hlen
            rw [h, h1, h2]
        · right
          rw [h]
          exact getD_set_ne _ _ _ _ _ hij
    have htup : L.InB (hs.set i (clamp (hs.getD i 0 - per) (L.getMinHeight i)
          (L.getMaxHeight i))) j ∨
        (hs.set i (clamp (hs.getD i 0 - per) (L.getMinHeight i)
          (L.getMaxHeight i))).getD j 0 = hs.getD j 0 := by
      by_cases hij : i = j
      · subst hij
        by_cases hlen : i < hs.length
        · left
          constructor
          · rw [getD_set_eq _ _ _ _ hlen]
            exact (clamp_mem _ (minHeight_le_maxHeight L i)).1
          · rw [getD_set_eq _ _ _ _ hlen]
            exact (clamp_mem _ (minHeight_le_maxHeight L i)).2
        · right
          push_neg at hlen
          have h1 : (hs.set i (clamp (hs.getD i 0 - per) (L.getMinHeight i)
              (L.getMaxHeight i))).getD i 0 = 0 := by
            apply List.getD_eq_default
            rw [List.length_set]; exact hlen
          rw [h1, List.getD_eq_default _ _ hlen]
      · right; exact getD_set_ne _ _ _ _ _ hij
    simp only [Layout.overflowLoop]
    split_ifs <;> first
      | exact htup
      | exact key _ _ _

theorem overflowLoop_blend_mem_InB (L : Layout) :
    ∀ (idxs : List Nat) (ov per : ℚ) (hs : List ℚ) (u : List Nat) (j : Nat),
      j ∈ idxs → j < hs.length →
      L.InB (L.overflowLoop true idxs ov per hs u).2.1 j := by
  intro idxs
  induction idxs with
  | nil => intro ov per hs u j hj; exact absurd hj (List.not_mem_nil j)
  | cons i rest ih =>
    intro ov per hs u j hj hlen
    have main : ∀ (ov' per' : ℚ) (u' : List Nat),
        L.InB (L.overflowLoop true rest ov' per'
          (hs.set i (clamp (hs.getD i 0 - per) (L.getMinHeight i)
            (L.getMaxHeight i))) u').2.1 j := by
      intro ov' per' u'
      by_cases hjr : j ∈ rest
      · exact ih _ _ _ _ j hjr (by rw [List.length_set]; exact hlen)
      · have hij : j = i := by
          rcases List.mem_cons.mp hj with h | h
          · exact h
          · exact absurd h hjr
        subst hij
        have hset : L.InB (hs.set j (clamp (hs.getD j 0 - per)
            (L.getMinHeight j) (L.getMaxHeight j))) j := by
          constructor
          · rw [getD_set_eq _ _ _ _ hlen]
            exact (clamp_mem _ (minHeight_le_maxHeight L j)).1
          · rw [getD_set_eq _ _ _ _ hlen]
            exact (clamp_mem _ (minHeight_le_maxHeight L j)).2
        rcases overflowLoop_InB_or_unchanged L true rest ov' per'
          (hs.set j (clamp (hs.getD j 0 - per) (L.getMinHeight j)
            (L.getMaxHeight j))) u' j with h | h
        · exact h
        · exact ⟨h ▸ hset.1, h ▸ hset.2⟩
    simp only [Layout.overflowLoop]
    split_ifs <;> exact main _ _ _

theorem overflowLoop_conserve (L : Layout) (blend : Bool) :
    ∀ (idxs : List Nat) (ov per : ℚ) (hs : List ℚ) (u : List Nat),
      (∀ i ∈ idxs, i < hs.length) →
      (L.overflowLoop blend idxs ov per hs u).1 -
        (L.overflowLoop blend idxs ov per hs u).2.1.sum = ov - hs.sum := by
  intro idxs
  induction idxs with
  | nil => intro ov per hs u _; simp [Layout.overflowLoop]
  | cons i rest ih =>
    intro ov per hs u hbd
    have hi : i < hs.length := hbd i (List.mem_cons_self i rest)
    have hrest : ∀ v, ∀ j ∈ rest, j < (hs.set i v).length := by
      intro v j hj
      rw [List.length_set]
      exact hbd j (List.mem_cons_of_mem i hj)
    have hsum : ∀ v, (hs.set i v).sum = hs.sum - hs.getD i 0 + v :=
      fun v => sum_set hs i v hi
    have step : ∀ (v : ℚ),
        (ov - (hs.getD i 0 - v)) - (hs.set i v).sum = ov - hs.sum := by
      intro v
      rw [hsum v]; ring
    have key : ∀ (u' : List Nat) (v : ℚ) (per' : ℚ),
        (L.overflowLoop blend rest (ov - (hs.getD i 0 - v)) per'
          (hs.set i v) u').1 -
        (L.overflowLoop blend rest (ov - (hs.getD i 0 - v)) per'
          (hs.set i v) u').2.1.sum = ov - hs.sum := by
      intro u' v per'
      rw [ih _ _ _ _ (hrest v)]
      rw [hsum v]; ring
    simp only [Layout.overflowLoop]
    split_ifs <;> first
      | exact step _
      | exact key _ _ _

theorem overflowLoop_unclamped_sub (L : Layout) (blend : Bool) :
    ∀ (idxs : List Nat) (ov per : ℚ) (hs : List ℚ) (u : List Nat) (j : Nat),
      j ∈ (L.overflowLoop blend idxs ov per hs u).2.2 →
      j ∈ u ∨ j ∈ idxs := by
  intro idxs
  induction idxs with
  | nil => intro ov per hs u j hj; exact Or.inl hj
  | cons i rest ih =>
    intro ov per hs u j hj
    have hcase1 : j ∈ u ++ [i] → j ∈ u ∨ j ∈ i :: rest := by
      intro h
      rcases List.mem_append.mp h with h | h
      · exact Or.inl h
      · right
        have : j = i := by simpa using h
        exact this ▸ List.mem_cons_self i rest
    have hcase2 : j ∈ u → j ∈ u ∨ j ∈ i :: rest := Or.inl
    have hrest : j ∈ rest → j ∈ u ∨ j ∈ i :: rest :=
      fun h => Or.inr (List.mem_cons_of_mem i h)
    simp only [Layout.overflowLoop] at hj
    split_ifs at hj <;> first
      | exact hcase1 hj
      | exact hcase2 hj
      | (rcases ih _ _ _ _ j hj with h | h <;> first
          | exact hcase1 h
          | exact hcase2 h
          | exact hrest h)

theorem overflowLoop_blend_count (L : Layout) :
    ∀ (idxs : List Nat) (ov per : ℚ) (hs : List ℚ) (u : List Nat),
      (L.overflowLoop true idxs ov per hs u).2.2.length ≤
        u.length + idxs.length ∧
      ((L.overflowLoop true idxs ov per hs u).2.2.length =
          u.length + idxs.length →
        (L.overflowLoop true idxs ov per hs u).1 =
          ov - (idxs.length : ℚ) * per) := by
  intro idxs
  induction idxs with
  | nil =>
    intro ov per hs u
    exact ⟨Nat.le_refl _, fun _ => by simp [Layout.overflowLoop]⟩
  | cons i rest ih =>
    intro ov per hs u
    by_cases hp : clamp (hs.getD i 0 - per) (L.getMinHeight i)
        (L.getMaxHeight i) = hs.getD i 0 - per
    · simp only [Layout.overflowLoop, if_true]
      rw [if_pos hp, hp]
      have e : ov - (hs.getD i 0 - (hs.getD i 0 - per)) = ov - per := by ring
      rw [e]
      obtain ⟨ihl, ihe⟩ :=
        ih (ov - per) per (hs.set i (hs.getD i 0 - per)) (u ++ [i])
      constructor
      · refine le_trans ihl ?_
        simp only [List.length_append, List.length_cons, List.length_nil]
        omega
      · intro he
        have hlen : u.length + (i :: rest).length =
            (u ++ [i]).length + rest.length := by
          simp only [List.length_append, List.length_cons, List.length_nil]
          omega
        have hq := ihe (by rw [← hlen]; exact he)
        rw [hq]
        simp only [List.length_cons]
        push_cast
        ring
    · simp only [Layout.overflowLoop, if_true]
      rw [if_neg hp]
      obtain ⟨ihl, ihe⟩ :=
        ih (ov - (hs.getD i 0 - clamp (hs.getD i 0 - per) (L.getMinHeight i)
          (L.getMaxHeight i))) per
          (hs.set i (clamp (hs.getD i 0 - per) (L.getMinHeight i)
            (L.getMaxHeight i))) u
      constructor
      · refine le_trans ihl ?_
        simp only [List.length_cons]
        omega
      · intro he
        exfalso
        simp only [List.length_cons] at he
        omega

theorem overflowLoop_nonblend (L : Layout) :
    ∀ (idxs : List Nat) (ov : ℚ) (hs : List ℚ) (u : List Nat),
      |(L.overflowLoop false idxs ov ov hs u).1| < 1 ∨
      (L.overflowLoop false idxs ov ov hs u).2.2 = u := by
  intro idxs
  induction idxs with
  | nil => intro ov hs u; exact Or.inr rfl
  | cons i rest ih =>
    intro ov hs u
    by_cases hbr : |ov - (hs.getD i 0 - clamp (hs.getD i 0 - ov)
        (L.getMinHeight i) (L.getMaxHeight i))| < 1
    · simp only [Layout.overflowLoop, Bool.false_eq_true, if_false]
      rw [if_pos hbr]
      exact Or.inl hbr
    · by_cases hp : clamp (hs.getD i 0 - ov) (L.getMinHeight i)
          (L.getMaxHeight i) = hs.getD i 0 - ov
      · exfalso
        apply hbr
        rw [hp]
        have e : ov - (hs.getD i 0 - (hs.getD i 0 - ov)) = 0 := by ring
        rw [e]
        norm_num
      · simp only [Layout.overflowLoop, Bool.false_eq_true, if_false]
        rw [if_neg hbr, if_neg hp]
        exact ih _ _ _

/-! ### Lemmas about `_applyOverflow` (fueled recursion) -/

theorem applyOverflowF_stop (L : Layout) :
    ∀ (fuel : Nat) (ov : ℚ) (idxs : List Nat) (blend : Bool) (hs : List ℚ)
      (r : ℚ × List ℚ × List Nat),
      L.applyOverflowF fuel ov idxs blend hs = some r →
      |r.1| ≤ 1 ∨ r.2.2 = [] := by
  intro fuel
  induction fuel with
  | zero =>
    intro ov idxs blend hs r h
    simp only [Layout.applyOverflowF] at h
    split at h
    · exact Option.noConfusion h
    · next hc =>
      cases Option.some.inj h
      rcases not_and_or.mp hc with h1 | h1
      · exact Or.inl (not_lt.mp h1)
      · exact Or.inr (not_not.mp h1)
  | succ f ih =>
    intro ov idxs blend hs r h
    simp only [Layout.applyOverflowF] at h
    split at h
    · exact ih _ _ _ _ _ h
    · next hc =>
      cases Option.some.inj h
      rcases not_and_or.mp hc with h1 | h1
      · exact Or.inl (not_lt.mp h1)
      · exact Or.inr (not_not.mp h1)

theorem applyOverflowF_isSome (L : Layout) :
    ∀ (fuel : Nat) (ov : ℚ) (idxs : List Nat) (blend : Bool) (hs : List ℚ),
      idxs.length ≤ fuel →
      (L.applyOverflowF fuel ov idxs blend hs).isSome = true := by
  intro fuel
  induction fuel with
  | zero =>
    intro ov idxs blend hs hlen
    have h0 : idxs = [] := List.length_eq_zero.mp (Nat.le_zero.mp hlen)
    subst h0
    simp [Layout.applyOverflowF, Layout.overflowLoop]
  | succ f ih =>
    intro ov idxs blend hs hlen
    cases blend with
    | false =>
      simp only [Layout.applyOverflowF, overflowPerSection,
        Bool.false_eq_true, if_false]
      split
      · next hc =>
        exfalso
        rcases overflowLoop_nonblend L idxs ov hs [] with hh | hh
        · exact absurd hc.1 (not_lt.mpr hh.le)
        · exact hc.2 hh
      · simp
    | true =>
      simp only [Layout.applyOverflowF, overflowPerSection, if_true]
      split
      · next hc =>
        apply ih
        obtain ⟨cl, ce⟩ :=
          overflowLoop_blend_count L idxs ov (ov / (idxs.length : ℚ)) hs []
        by_cases heq : (L.overflowLoop true idxs ov (ov / (idxs.length : ℚ))
            hs []).2.2.length = idxs.length
        · exfalso
          have hne : idxs ≠ [] := by
            intro h0
            subst h0
            exact hc.2 rfl
          have hq : ((idxs.length : ℚ)) ≠ 0 :=
            Nat.cast_ne_zero.mpr fun h0 => hne (List.length_eq_zero.mp h0)
          have hml : ((idxs.length : ℚ)) * (ov / (idxs.length : ℚ)) = ov := by
            field_simp
          have hz : (L.overflowLoop true idxs ov (ov / (idxs.length : ℚ))
              hs []).1 = 0 := by
            rw [ce (by simpa using heq), hml]
            ring
          rw [hz] at hc
          exact absurd hc.1 (by norm_num)
        · have hlt : (L.overflowLoop true idxs ov (ov / (idxs.length : ℚ))
              hs []).2.2.length < idxs.length :=
            lt_of_le_of_ne (by simpa using cl) heq
          omega
      · simp

theorem applyOverflowF_length (L : Layout) :
    ∀ (fuel : Nat) (ov : ℚ) (idxs : List Nat) (blend : Bool) (hs : List ℚ)
      (r : ℚ × List ℚ × List Nat),
      L.applyOverflowF fuel ov idxs blend hs = some r →
      r.2.1.length = hs.length := by
  intro fuel
  induction fuel with
  | zero =>
    intro ov idxs blend hs r h
    simp only [Layout.applyOverflowF] at h
    split at h
    · exact Option.noConfusion h
    · cases Option.some.inj h
      exact overflowLoop_length L blend idxs ov _ hs []
  | succ f ih =>
    intro ov idxs blend hs r h
    simp only [Layout.applyOverflowF] at h
    split at h
    · rw [ih _ _ _ _ _ h]
      exact overflowLoop_length L blend idxs ov _ hs []
    · cases Option.some.inj h
      exact overflowLoop_length L blend idxs ov _ hs []

theorem applyOverflowF_InB_or_unchanged (L : Layout) :
    ∀ (fuel : Nat) (ov : ℚ) (idxs : List Nat) (blend : Bool) (hs : List ℚ)
      (r : ℚ × List ℚ × List Nat),
      L.applyOverflowF fuel ov idxs blend hs = some r →
      ∀ j, L.InB r.2.1 j ∨ r.2.1.getD j 0 = hs.getD j 0 := by
  intro fuel
  induction fuel with
  | zero =>
    intro ov idxs blend hs r h j
    simp only [Layout.applyOverflowF] at h
    split at h
    · exact Option.noConfusion h
    · cases Option.some.inj h
      exact overflowLoop_InB_or_unchanged L blend idxs ov _ hs [] j
  | succ f ih =>
    intro ov idxs blend hs r h j
    simp only [Layout.applyOverflowF] at h
    split at h
    · rcases ih _ _ _ _ _ h j with h1 | h1
      · exact Or.inl h1
      · rcases overflowLoop_InB_or_unchanged L blend idxs ov _ hs [] j
          with h2 | h2
        · exact Or.inl ⟨by rw [h1]; exact h2.1, by rw [h1]; exact h2.2⟩
        · exact Or.inr (by rw [h1, h2])
    · cases Option.some.inj h
      exact overflowLoop_InB_or_unchanged L blend idxs ov _ hs [] j

theorem applyOverflowF_blend_mem_InB (L : Layout) :
    ∀ (fuel : Nat) (ov : ℚ) (idxs : List Nat) (hs : List ℚ)
      (r : ℚ × List ℚ × List Nat),
      L.applyOverflowF fuel ov idxs true hs = some r →
      ∀ j ∈ idxs, j < hs.length → L.InB r.2.1 j := by
  intro fuel
  induction fuel with
  | zero =>
    intro ov idxs hs r h j hj hlen
    simp only [Layout.applyOverflowF] at h
    split at h
    · exact Option.noConfusion h
    · cases Option.some.inj h
      exact overflowLoop_blend_mem_InB L idxs ov _ hs [] j hj hlen
  | succ f ih =>
    intro ov idxs hs r h j hj hlen
    have hpost : L.InB (L.overflowLoop true idxs ov
        (ov / (idxs.length : ℚ)) hs []).2.1 j :=
      overflowLoop_blend_mem_InB L idxs ov _ hs [] j hj hlen
    simp only [Layout.applyOverflowF, overflowPerSection, if_true] at h
    split at h
    · rcases applyOverflowF_InB_or_unchanged L f _ _ _ _ _ h j with h1 | h1
      · exact h1
      · exact ⟨by rw [h1]; exact hpost.1, by rw [h1]; exact hpost.2⟩
    · cases Option.some.inj h
      exact hpost

theorem applyOverflowF_conserve (L : Layout) :
    ∀ (fuel : Nat) (ov : ℚ) (idxs : List Nat) (blend : Bool) (hs : List ℚ)
      (r : ℚ × List ℚ × List Nat),
      L.applyOverflowF fuel ov idxs blend hs = some r →
      (∀ i ∈ idxs, i < hs.length) →
      r.1 - r.2.1.sum = ov - hs.sum := by
  intro fuel
  induction fuel with
  | zero =>
    intro ov idxs blend hs r h hbd
    simp only [Layout.applyOverflowF] at h
    split at h
    · exact Option.noConfusion h
    · cases Option.some.inj h
      exact overflowLoop_conserve L blend idxs ov _ hs [] hbd
  | succ f ih =>
    intro ov idxs blend hs r h hbd
    simp only [Layout.applyOverflowF] at h
    split at h
    · have hbd2 : ∀ i ∈ (L.overflowLoop blend idxs ov
          (if blend = true then ov / (idxs.length : ℚ) else ov) hs
          []).2.2, i <
          (L.overflowLoop blend idxs ov
            (if blend = true then ov / (idxs.length : ℚ) else ov) hs
            []).2.1.length := by
        intro i hi
        rcases overflowLoop_unclamped_sub L blend idxs ov _ hs [] i hi
          with h0 | h0
        · exact absurd h0 (List.not_mem_nil i)
        · rw [overflowLoop_length]
          exact hbd i h0
      have step := ih _ _ _ _ _ h hbd2
      rw [step]
      exact overflowLoop_conserve L blend idxs ov _ hs [] hbd
    · cases Option.some.inj h
      exact overflowLoop_conserve L blend idxs ov _ hs [] hbd

/-- The fuel `idxs.length` used by `applyOverflow` never runs out. -/
theorem applyOverflowF_run (L : Layout) (ov : ℚ) (idxs : List Nat)
    (blend : Bool) (hs : List ℚ) :
    L.applyOverflowF idxs.length ov idxs blend hs =
      some (L.applyOverflow ov idxs blend hs) := by
  have h := applyOverflowF_isSome L idxs.length ov idxs blend hs
    (Nat.le_refl _)
  obtain ⟨r, hr⟩ := Option.isSome_iff_exists.mp h
  unfold Layout.applyOverflow
  rw [hr]
  rfl

theorem applyOverflow_stop (L : Layout) (ov : ℚ) (idxs : List Nat)
    (blend : Bool) (hs : List ℚ) :
    |(L.applyOverflow ov idxs blend hs).1| ≤ 1 ∨
    (L.applyOverflow ov idxs blend hs).2.2 = [] :=
  applyOverflowF_stop L idxs.length ov idxs blend hs _
    (applyOverflowF_run L ov idxs blend hs)

theorem applyOverflow_length (L : Layout) (ov : ℚ) (idxs : List Nat)
    (blend : Bool) (hs : List ℚ) :
    (L.applyOverflow ov idxs blend hs).2.1.length = hs.length :=
  applyOverflowF_length L idxs.length ov idxs blend hs _
    (applyOverflowF_run L ov idxs blend hs)

theorem applyOverflow_InB_or_unchanged (L : Layout) (ov : ℚ)
    (idxs : List Nat) (blend : Bool) (hs : List ℚ) (j : Nat) :
    L.InB (L.applyOverflow ov idxs blend hs).2.1 j ∨
    (L.applyOverflow ov idxs blend hs).2.1.getD j 0 = hs.getD j 0 :=
  applyOverflowF_InB_or_unchanged L idxs.length ov idxs blend hs _
    (applyOverflowF_run L ov idxs blend hs) j

theorem applyOverflow_blend_mem_InB (L : Layout) (ov : ℚ) (idxs : List Nat)
    (hs : List ℚ) (j : Nat) (hj : j ∈ idxs) (hlen : j < hs.length) :
    L.InB (L.applyOverflow ov idxs true hs).2.1 j :=
  applyOverflowF_blend_mem_InB L idxs.length ov idxs hs _
    (applyOverflowF_run L ov idxs true hs) j hj hlen

theorem applyOverflow_conserve (L : Layout) (ov : ℚ) (idxs : List Nat)
    (blend : Bool) (hs : List ℚ) (hbd : ∀ i ∈ idxs, i < hs.length) :
    (L.applyOverflow ov idxs blend hs).1 -
      (L.applyOverflow ov idxs blend hs).2.1.sum = ov - hs.sum :=
  applyOverflowF_conserve L idxs.length ov idxs blend hs _
    (applyOverflowF_run L ov idxs blend hs) hbd

/-! ### Lemmas about `_commitHeights`, the `update` seeding loop and
`_getSectionIndex` -/

theorem lookup_commitFrom_not_mem :
    ∀ (secs : List Sec) (hts : List ℚ) (i : Nat) (m : List (String × ℚ))
      (id : String), (∀ s ∈ secs, s.id ≠ id) →
      List.lookup id (commitFrom secs hts i m) = List.lookup id m := by
  intro secs
  induction secs with
  | nil => intro hts i m id _; rfl
  | cons t rest ih =>
    intro hts i m id hne
    have h1 : t.id ≠ id := hne t (List.mem_cons_self t rest)
    have h2 : ∀ s ∈ rest, s.id ≠ id := fun s hs =>
      hne s (List.mem_cons_of_mem t hs)
    show List.lookup id (commitFrom rest hts (i + 1)
      (setEntry m t.id (hts.getD i 0))) = List.lookup id m
    rw [ih _ _ _ _ h2, lookup_setEntry_ne _ _ _ _ (fun e => h1 e.symm)]

theorem lookup_commitFrom_get :
    ∀ (secs : List Sec) (hts : List ℚ) (i : Nat) (m : List (String × ℚ))
      (j : Nat) (s : Sec), (secs.map Sec.id).Nodup → secs.get? j = some s →
      List.lookup s.id (commitFrom secs hts i m) =
        some (hts.getD (i + j) 0) := by
  intro secs
  induction secs with
  | nil => intro hts i m j s _ hget; exact Option.noConfusion hget
  | cons t rest ih =>
    intro hts i m j s hnd hget
    have hnd' : (∀ x ∈ rest, ¬x.id = t.id) ∧ (rest.map Sec.id).Nodup := by
      simpa using hnd
    match j, hget with
    | 0, hget =>
      have hts0 : t = s := Option.some.inj hget
      subst hts0
      show List.lookup t.id (commitFrom rest hts (i + 1)
        (setEntry m t.id (hts.getD i 0))) = some (hts.getD (i + 0) 0)
      rw [lookup_commitFrom_not_mem rest hts (i + 1) _ t.id hnd'.1,
        lookup_setEntry_self, Nat.add_zero]
    | j + 1, hget =>
      have hget' : rest.get? j = some s := hget
      have hmem : s ∈ rest := List.get?_mem hget'
      have hne : s.id ≠ t.id := hnd'.1 s hmem
      show List.lookup s.id (commitFrom rest hts (i + 1)
        (setEntry m t.id (hts.getD i 0))) = some (hts.getD (i + (j + 1)) 0)
      rw [ih hts (i + 1) _ j s hnd'.2 hget']
      have hidx : i + 1 + j = i + (j + 1) := by omega
      rw [hidx]

theorem map_lookup_commitFrom :
    ∀ (secs : List Sec) (hts : List ℚ) (i : Nat) (m : List (String × ℚ)),
      (secs.map Sec.id).Nodup →
      secs.map (fun s =>
        (List.lookup s.id (commitFrom secs hts i m)).getD 0) =
      (List.range secs.length).map (fun j => hts.getD (i + j) 0) := by
  intro secs
  induction secs with
  | nil => intro hts i m _; rfl
  | cons t rest ih =>
    intro hts i m hnd
    have hnd' : (∀ x ∈ rest, ¬x.id = t.id) ∧ (rest.map Sec.id).Nodup := by
      simpa using hnd
    have hhead : List.lookup t.id (commitFrom (t :: rest) hts i m) =
        some (hts.getD (i + 0) 0) :=
      lookup_commitFrom_get (t :: rest) hts i m 0 t hnd rfl
    have htail : ∀ s ∈ rest,
        List.lookup s.id (commitFrom (t :: rest) hts i m) =
        List.lookup s.id (commitFrom rest hts (i + 1)
          (setEntry m t.id (hts.getD i 0))) := fun s _ => rfl
    show (List.lookup t.id (commitFrom (t :: rest) hts i m)).getD 0 ::
        rest.map (fun s =>
          (List.lookup s.id (commitFrom (t :: rest) hts i m)).getD 0) = _
    rw [hhead]
    have : rest.map (fun s =>
        (List.lookup s.id (commitFrom (t :: rest) hts i m)).getD 0) =
        rest.map (fun s => (List.lookup s.id (commitFrom rest hts (i + 1)
          (setEntry m t.id (hts.getD i 0)))).getD 0) := rfl
    rw [this, ih hts (i + 1) _ hnd'.2]
    rw [List.length_cons, List.range_succ_eq_map, List.map_cons,
      List.map_map]
    congr 1
    apply List.map_congr_left
    intro a _
    simp only [Function.comp_apply, Nat.succ_eq_add_one]
    have hidx : i + 1 + a = i + (a + 1) := by omega
    rw [hidx]

theorem sum_getD_range : ∀ (hts : List ℚ),
    ((List.range hts.length).map (fun j => hts.getD j 0)).sum = hts.sum := by
  intro hts
  induction hts with
  | nil => rfl
  | cons a t ih =>
    rw [List.length_cons, List.range_succ_eq_map, List.map_cons,
      List.map_map, List.sum_cons]
    have he : ((List.range t.length).map
        ((fun j => (a :: t).getD j 0) ∘ Nat.succ)) =
        (List.range t.length).map (fun j => t.getD j 0) := rfl
    rw [he, ih]
    rfl

theorem lookup_seedFrom_not_mem (L : Layout) (tot : ℚ) :
    ∀ (secs : List Sec) (i : Nat) (m : List (String × ℚ)) (id : String),
      (∀ s ∈ secs, s.id ≠ id) →
      List.lookup id (seedFrom L tot secs i m) = List.lookup id m := by
  intro secs
  induction secs with
  | nil => intro i m id _; rfl
  | cons t rest ih =>
    intro i m id hne
    have h1 : t.id ≠ id := hne t (List.mem_cons_self t rest)
    have h2 : ∀ s ∈ rest, s.id ≠ id := fun s hs =>
      hne s (List.mem_cons_of_mem t hs)
    show List.lookup id (seedFrom L tot rest (i + 1) _) = List.lookup id m
    rw [ih _ _ _ h2]
    split_ifs
    · exact lookup_setEntry_ne _ _ _ _ (fun e => h1 e.symm)
    · rfl

theorem lookup_seedFrom_get (L : Layout) (tot : ℚ) :
    ∀ (secs : List Sec) (i : Nat) (m : List (String × ℚ)) (j : Nat) (s : Sec),
      (secs.map Sec.id).Nodup → secs.get? j = some s →
      List.lookup s.id (seedFrom L tot secs i m) =
        if (List.lookup s.id m).getD 0 = 0 then
          some (clamp (tot / (L.sections.length : ℚ))
            (L.getMinHeight (i + j)) (L.getMaxHeight (i + j)))
        else List.lookup s.id m := by
  intro secs
  induction secs with
  | nil => intro i m j s _ hget; exact Option.noConfusion hget
  | cons t rest ih =>
    intro i m j s hnd hget
    have hnd' : (∀ x ∈ rest, ¬x.id = t.id) ∧ (rest.map Sec.id).Nodup := by
      simpa using hnd
    match j, hget with
    | 0, hget =>
      have hts0 : t = s := Option.some.inj hget
      subst hts0
      have hrest : ∀ s' ∈ rest, s'.id ≠ t.id := hnd'.1
      show List.lookup t.id (seedFrom L tot rest (i + 1) _) = _
      rw [lookup_seedFrom_not_mem L tot rest (i + 1) _ t.id hrest]
      split_ifs with hc
      · rw [lookup_setEntry_self, Nat.add_zero]
      · rfl
    | j + 1, hget =>
      have hget' : rest.get? j = some s := hget
      have hmem : s ∈ rest := List.get?_mem hget'
      have hne : s.id ≠ t.id := hnd'.1 s hmem
      show List.lookup s.id (seedFrom L tot rest (i + 1) _) = _
      rw [ih (i + 1) _ j s hnd'.2 hget']
      have hm' : List.lookup s.id
          (if (List.lookup t.id m).getD 0 = 0 then
            setEntry m t.id (clamp (tot / (L.sections.length : ℚ))
              (L.getMinHeight i) (L.getMaxHeight i))
          else m) = List.lookup s.id m := by
        split_ifs
        · exact lookup_setEntry_ne _ _ _ _ hne
        · rfl
      rw [hm']
      have hidx : i + 1 + j = i + (j + 1) := by omega
      rw [hidx]

theorem findIndexO_eq_none (p : Sec → Bool) :
    ∀ (l : List Sec), (∀ s ∈ l, p s = false) → findIndexO p l = none := by
  intro l
  induction l with
  | nil => intro _; rfl
  | cons t rest ih =>
    intro h
    have h1 : p t = false := h t (List.mem_cons_self t rest)
    have h2 : ∀ s ∈ rest, p s = false := fun s hs =>
      h s (List.mem_cons_of_mem t hs)
    simp [findIndexO, h1, ih h2]

theorem findIndexO_nodup_get :
    ∀ (l : List Sec) (j : Nat) (s : Sec), (l.map Sec.id).Nodup →
      l.get? j = some s →
      findIndexO (fun t => t.id = s.id) l = some j := by
  intro l
  induction l with
  | nil => intro j s _ hget; exact Option.noConfusion hget
  | cons t rest ih =>
    intro j s hnd hget
    have hnd' : (∀ x ∈ rest, ¬x.id = t.id) ∧ (rest.map Sec.id).Nodup := by
      simpa using hnd
    match j, hget with
    | 0, hget =>
      have hts0 : t = s := Option.some.inj hget
      subst hts0
      simp [findIndexO]
    | j + 1, hget =>
      have hget' : rest.get? j = some s := hget
      have hmem : s ∈ rest := List.get?_mem hget'
      have hne : t.id ≠ s.id := fun he => (hnd'.1 s hmem) he.symm
      simp [findIndexO, hne, ih j s hnd'.2 hget']

theorem getSectionIndex_of_not_mem (L : Layout) (id : String)
    (h : ∀ s ∈ L.sections, s.id ≠ id) : L.getSectionIndex id = -1 := by
  unfold Layout.getSectionIndex
  rw [findIndexO_eq_none _ _ (fun s hs => by simp [h s hs])]

theorem getSectionIndex_get (L : Layout) (j : Nat) (s : Sec)
    (hnd : (L.sections.map Sec.id).Nodup) (hget : L.sections.get? j = some s) :
    L.getSectionIndex s.id = (j : Int) := by
  unfold Layout.getSectionIndex
  rw [findIndexO_nodup_get L.sections j s hnd hget]

/-! ### Operation-level lemmas -/

theorem heightsOf_length (L : Layout) :
    L.heightsOf.length = L.sections.length :=
  List.length_map ..

theorem sectionAt_get (L : Layout) (i : Nat) (hi : i < L.sections.length) :
    L.sections.get? i = some (L.sectionAt i) := by
  unfold Layout.sectionAt
  rw [List.get?_eq_getElem?, List.getElem?_eq_getElem hi,
    List.getD_eq_getElem?_getD, List.getElem?_eq_getElem hi]
  rfl

theorem heightsOf_getD (L : Layout) (j : Nat) (hj : j < L.sections.length) :
    L.heightsOf.getD j 0 = L.storedHeight (L.sectionAt j).id :=
  getD_map_sections L _ j hj

theorem inBounds_heightsOf (L : Layout) (h : L.InBounds) :
    ∀ j, j < L.sections.length → L.InB L.heightsOf j := by
  intro j hj
  have hh := h j hj
  constructor
  · rw [heightsOf_getD L j hj]
    exact hh.1
  · rw [heightsOf_getD L j hj]
    exact hh.2

theorem inBounds_commitHeights (L : Layout) (hnd : idsNodup L.sections)
    (h : ∀ j, j < L.sections.length → L.InB L.heights j) :
    (L.commitHeights).InBounds := by
  intro i hi
  have hget := sectionAt_get L i hi
  have hlook : List.lookup (L.sectionAt i).id
      (commitFrom L.sections L.heights 0 L.sectionHeights) =
      some (L.heights.getD (0 + i) 0) :=
    lookup_commitFrom_get L.sections L.heights 0 L.sectionHeights i _ hnd hget
  have hIB := h i hi
  constructor
  · show L.getMinHeight i ≤ (List.lookup (L.sectionAt i).id
      (commitFrom L.sections L.heights 0 L.sectionHeights)).getD 0
    rw [hlook]
    simpa using hIB.1
  · show (List.lookup (L.sectionAt i).id
      (commitFrom L.sections L.heights 0 L.sectionHeights)).getD 0 ≤
      L.getMaxHeight i
    rw [hlook]
    simpa using hIB.2

theorem inBounds_applyNewSize (L : Layout) (hnd : idsNodup L.sections) :
    (L.applyNewSize).InBounds := by
  have h : ∀ j, j < L.sections.length →
      L.InB (L.redistribution).2.1 j := by
    intro j hj
    exact applyOverflow_blend_mem_InB L _ _ _ j (List.mem_range.mpr hj)
      (by rw [heightsOf_length]; exact hj)
  exact inBounds_commitHeights { L with heights := (L.redistribution).2.1 }
    hnd h

theorem storedHeight_applyNewSize (L : Layout) (hnd : idsNodup L.sections)
    (j : Nat) (s : Sec) (hget : L.sections.get? j = some s) :
    (L.applyNewSize).storedHeight s.id = (L.redistribution).2.1.getD j 0 := by
  show (List.lookup s.id (commitFrom L.sections (L.redistribution).2.1 0
    L.sectionHeights)).getD 0 = _
  rw [lookup_commitFrom_get L.sections _ 0 L.sectionHeights j s hnd hget]
  simp

theorem committedSum_applyNewSize (L : Layout) (hnd : idsNodup L.sections) :
    (L.applyNewSize).committedSum = (L.redistribution).2.1.sum := by
  show (L.sections.map (fun s => (List.lookup s.id (commitFrom L.sections
    (L.redistribution).2.1 0 L.sectionHeights)).getD 0)).sum = _
  rw [map_lookup_commitFrom L.sections _ 0 _ hnd]
  have hlen : (L.redistribution).2.1.length = L.sections.length := by
    unfold Layout.redistribution
    rw [applyOverflow_length]
    exact heightsOf_length L
  rw [← hlen]
  simp only [Nat.zero_add]
  exact sum_getD_range _

theorem redistribution_sum (L : Layout) :
    (L.redistribution).2.1.sum = L.getAvailableHeight + (L.redistribution).1
    := by
  have hbd : ∀ i ∈ List.range L.sections.length, i < L.heightsOf.length := by
    intro i hi
    rw [heightsOf_length]
    exact List.mem_range.mp hi
  have h := applyOverflow_conserve L
    (-(L.getAvailableHeight - L.heightsOf.sum))
    (List.range L.sections.length) true L.heightsOf hbd
  unfold Layout.redistribution
  linarith [h]

theorem rebalanceAbove_InB_or_unchanged (L : Layout) (anchor : Nat) (ov : ℚ)
    (hs : List ℚ) (j : Nat) :
    L.InB (L.rebalanceAbove anchor ov hs).2 j ∨
    (L.rebalanceAbove anchor ov hs).2.getD j 0 = hs.getD j 0 := by
  unfold Layout.rebalanceAbove
  split_ifs
  · exact applyOverflow_InB_or_unchanged L ov _ false hs j
  · exact Or.inr rfl

theorem rebalanceBelow_InB_or_unchanged (L : Layout) (anchor : Nat) (ov : ℚ)
    (hs : List ℚ) (j : Nat) :
    L.InB (L.rebalanceBelow anchor ov hs).2 j ∨
    (L.rebalanceBelow anchor ov hs).2.getD j 0 = hs.getD j 0 := by
  unfold Layout.rebalanceBelow
  split_ifs
  · exact applyOverflow_InB_or_unchanged L ov _ false hs j
  · exact Or.inr rfl

theorem relayoutCore_InB (L : Layout)
    (hIB : ∀ j, j < L.sections.length → L.InB L.heightsOf j)
    (anchor : Nat) (offset : ℚ) (j : Nat) (hj : j < L.sections.length) :
    L.InB (L.relayoutCore anchor offset).2.2 j := by
  have h1 : ∀ k, k < L.sections.length →
      L.InB (L.heightsOf.set anchor (clamp (L.heightsOf.getD anchor 0 +
        offset) (L.getMinHeight anchor) (L.getMaxHeight anchor))) k := by
    intro k hk
    by_cases hka : k = anchor
    · subst hka
      have hlen : k < L.heightsOf.length := by
        rw [heightsOf_length]; exact hk
      constructor
      · rw [getD_set_eq _ _ _ _ hlen]
        exact (clamp_mem _ (minHeight_le_maxHeight L k)).1
      · rw [getD_set_eq _ _ _ _ hlen]
        exact (clamp_mem _ (minHeight_le_maxHeight L k)).2
    · have hne : anchor ≠ k := fun e => hka e.symm
      constructor
      · rw [getD_set_ne _ _ _ _ _ hne]
        exact (hIB k hk).1
      · rw [getD_set_ne _ _ _ _ _ hne]
        exact (hIB k hk).2
  have hAbove : ∀ (ov1 : ℚ) (k : Nat), k < L.sections.length →
      L.InB (L.rebalanceAbove anchor ov1 (L.heightsOf.set anchor
        (clamp (L.heightsOf.getD anchor 0 + offset) (L.getMinHeight anchor)
          (L.getMaxHeight anchor)))).2 k := by
    intro ov1 k hk
    rcases rebalanceAbove_InB_or_unchanged L anchor ov1 _ k with h | h
    · exact h
    · exact ⟨by rw [h]; exact (h1 k hk).1, by rw [h]; exact (h1 k hk).2⟩
  have hBelow : ∀ (ov1 ov2 : ℚ) (k : Nat), k < L.sections.length →
      L.InB (L.rebalanceBelow anchor ov2 (L.rebalanceAbove anchor ov1
        (L.heightsOf.set anchor (clamp (L.heightsOf.getD anchor 0 + offset)
          (L.getMinHeight anchor) (L.getMaxHeight anchor)))).2).2 k := by
    intro ov1 ov2 k hk
    rcases rebalanceBelow_InB_or_unchanged L anchor ov2 _ k with h | h
    · exact h
    · exact ⟨by rw [h]; exact (hAbove ov1 k hk).1,
        by rw [h]; exact (hAbove ov1 k hk).2⟩
  exact hBelow _ _ j hj

theorem relayout_fst_sections (L : Layout) (anchor : Nat) (offset : ℚ) :
    ((L.relayout anchor offset).1).sections = L.sections := by
  simp only [Layout.relayout]
  split_ifs <;> rfl

theorem relayout_fst_collapsedState (L : Layout) (anchor : Nat)
    (offset : ℚ) :
    ((L.relayout anchor offset).1).collapsedState = L.collapsedState := by
  simp only [Layout.relayout]
  split_ifs <;> rfl

theorem relayout_fst_availableHeight (L : Layout) (anchor : Nat)
    (offset : ℚ) :
    ((L.relayout anchor offset).1).availableHeight = L.availableHeight := by
  simp only [Layout.relayout]
  split_ifs <;> rfl

theorem relayout_fst_sectionHeights (L : Layout) (anchor : Nat)
    (offset : ℚ) :
    ((L.relayout anchor offset).1).sectionHeights = L.sectionHeights := by
  simp only [Layout.relayout]
  split_ifs <;> rfl

theorem setHeight_fst_sections (hdl : Handle) (L : Layout) (q : ℚ) :
    ((Handle.setHeight hdl L q).1).sections = L.sections :=
  relayout_fst_sections L _ _

theorem setHeight_fst_collapsedState (hdl : Handle) (L : Layout) (q : ℚ) :
    ((Handle.setHeight hdl L q).1).collapsedState = L.collapsedState :=
  relayout_fst_collapsedState L _ _

theorem getMinHeight_congr (L1 L2 : Layout) (hs : L1.sections = L2.sections)
    (hc : L1.collapsedState = L2.collapsedState) (i : Nat) :
    L1.getMinHeight i = L2.getMinHeight i := by
  unfold Layout.getMinHeight Layout.collapsed Layout.sectionAt
  rw [hs, hc]

theorem getMaxHeight_congr (L1 L2 : Layout) (hs : L1.sections = L2.sections)
    (hc : L1.collapsedState = L2.collapsedState) (i : Nat) :
    L1.getMaxHeight i = L2.getMaxHeight i := by
  unfold Layout.getMaxHeight Layout.collapsed Layout.sectionAt
  rw [hs, hc]

theorem relayout_heights_InB (L : Layout) (hIB : L.InBounds)
    (anchor : Nat) (offset : ℚ) (j : Nat) (hj : j < L.sections.length) :
    L.InB ((L.relayout anchor offset).1).heights j := by
  have hh := inBounds_heightsOf L hIB
  simp only [Layout.relayout]
  split_ifs <;> exact relayoutCore_InB L hh anchor _ j hj

theorem inBounds_drag (L : Layout) (hnd : idsNodup L.sections)
    (hIB : L.InBounds) (hdl : Handle) (q : ℚ) :
    ((Handle.finish hdl ((Handle.setHeight hdl L q).1)).1).InBounds := by
  refine inBounds_commitHeights ((Handle.setHeight hdl L q).1) ?_ ?_
  · show idsNodup ((Handle.setHeight hdl L q).1).sections
    rw [setHeight_fst_sections]
    exact hnd
  · intro j hj
    rw [setHeight_fst_sections] at hj
    have h := relayout_heights_InB L hIB hdl.anchor.toNat
      (q - hdl.initialHeight.getD 0) j hj
    refine ⟨?_, ?_⟩
    · rw [getMinHeight_congr ((Handle.setHeight hdl L q).1) L
        (setHeight_fst_sections hdl L q)
        (setHeight_fst_collapsedState hdl L q) j]
      exact h.1
    · rw [getMaxHeight_congr ((Handle.setHeight hdl L q).1) L
        (setHeight_fst_sections hdl L q)
        (setHeight_fst_collapsedState hdl L q) j]
      exact h.2

theorem inBounds_setAvailableHeight (L : Layout) (hnd : idsNodup L.sections)
    (q : ℚ) : (L.setAvailableHeight q).InBounds :=
  inBounds_applyNewSize { L with availableHeight := q } hnd

theorem inBounds_collapseSection (L : Layout) (hnd : idsNodup L.sections)
    (id : String) : (L.collapseSection id).InBounds :=
  inBounds_applyNewSize
    { L with collapsedState := setEntry L.collapsedState id true } hnd

theorem inBounds_expandSection (L : Layout) (hnd : idsNodup L.sections)
    (id : String) (q : ℚ) : (L.expandSection id q).InBounds := by
  exact inBounds_drag
    (Layout.applyNewSize
      { L with collapsedState := setEntry L.collapsedState id false })
    hnd
    (inBounds_applyNewSize
      { L with collapsedState := setEntry L.collapsedState id false } hnd)
    ((Layout.applyNewSize
      { L with collapsedState := setEntry L.collapsedState id false
        }).openHandle id) q

theorem inBounds_update (L : Layout) (ss : List Sec) (avh : Option ℚ)
    (hnd : idsNodup ss) :
    L.update ss avh = L ∨ (L.update ss avh).InBounds := by
  simp only [Layout.update]
  split_ifs
  · exact Or.inl rfl
  · exact Or.inr (inBounds_applyNewSize
      { L.updateAdopted ss avh with sectionHeights := L.updateSeeded ss avh }
      hnd)

/-! ### Further bridge lemmas for the claim theorems -/

theorem lt_of_get?_eq_some {l : List Sec} {j : Nat} {s : Sec}
    (h : l.get? j = some s) : j < l.length := by
  by_contra hc
  push_neg at hc
  rw [List.get?_eq_none.mpr hc] at h
  exact Option.noConfusion h

theorem sectionAt_eq_of_get? (L : Layout) {j : Nat} {s : Sec}
    (h : L.sections.get? j = some s) : L.sectionAt j = s := by
  unfold Layout.sectionAt
  rw [List.getD_eq_getElem?_getD, ← List.get?_eq_getElem?, h]
  rfl

theorem overflowLoop_congr (L1 L2 : Layout)
    (hmin : ∀ i, L1.getMinHeight i = L2.getMinHeight i)
    (hmax : ∀ i, L1.getMaxHeight i = L2.getMaxHeight i) (blend : Bool) :
    ∀ (idxs : List Nat) (ov per : ℚ) (hs : List ℚ) (u : List Nat),
      L1.overflowLoop blend idxs ov per hs u =
      L2.overflowLoop blend idxs ov per hs u := by
  intro idxs
  induction idxs with
  | nil => intro ov per hs u; rfl
  | cons i rest ih =>
    intro ov per hs u
    simp only [Layout.overflowLoop, hmin, hmax]
    split_ifs <;> first
      | rfl
      | apply ih

theorem applyOverflowF_congr (L1 L2 : Layout)
    (hmin : ∀ i, L1.getMinHeight i = L2.getMinHeight i)
    (hmax : ∀ i, L1.getMaxHeight i = L2.getMaxHeight i) :
    ∀ (fuel : Nat) (ov : ℚ) (idxs : List Nat) (blend : Bool) (hs : List ℚ),
      L1.applyOverflowF fuel ov idxs blend hs =
      L2.applyOverflowF fuel ov idxs blend hs := by
  intro fuel
  induction fuel with
  | zero =>
    intro ov idxs blend hs
    simp only [Layout.applyOverflowF,
      overflowLoop_congr L1 L2 hmin hmax blend]
  | succ f ih =>
    intro ov idxs blend hs
    simp only [Layout.applyOverflowF,
      overflowLoop_congr L1 L2 hmin hmax blend, ih]

theorem applyOverflow_congr (L1 L2 : Layout)
    (hmin : ∀ i, L1.getMinHeight i = L2.getMinHeight i)
    (hmax : ∀ i, L1.getMaxHeight i = L2.getMaxHeight i) (ov : ℚ)
    (idxs : List Nat) (blend : Bool) (hs : List ℚ) :
    L1.applyOverflow ov idxs blend hs = L2.applyOverflow ov idxs blend hs := by
  unfold Layout.applyOverflow
  rw [applyOverflowF_congr L1 L2 hmin hmax]

theorem getMinHeight_set_heights (L : Layout) (x : List ℚ) (i : Nat) :
    ({ L with heights := x } : Layout).getMinHeight i = L.getMinHeight i :=
  rfl

theorem getMaxHeight_set_heights (L : Layout) (x : List ℚ) (i : Nat) :
    ({ L with heights := x } : Layout).getMaxHeight i = L.getMaxHeight i :=
  rfl

theorem heightsOf_set_heights (L : Layout) (x : List ℚ) :
    ({ L with heights := x } : Layout).heightsOf = L.heightsOf := rfl

theorem applyOverflow_set_heights (L : Layout) (x : List ℚ) (ov : ℚ)
    (idxs : List Nat) (blend : Bool) (hs : List ℚ) :
    Layout.applyOverflow { L with heights := x } ov idxs blend hs =
    L.applyOverflow ov idxs blend hs :=
  applyOverflow_congr _ L (getMinHeight_set_heights L x)
    (getMaxHeight_set_heights L x) ov idxs blend hs

theorem rebalanceAbove_set_heights (L : Layout) (x : List ℚ) (anchor : Nat)
    (ov : ℚ) (hts : List ℚ) :
    Layout.rebalanceAbove { L with heights := x } anchor ov hts =
    L.rebalanceAbove anchor ov hts := by
  unfold Layout.rebalanceAbove
  simp only [applyOverflow_set_heights]

theorem rebalanceBelow_set_heights (L : Layout) (x : List ℚ) (anchor : Nat)
    (ov : ℚ) (hts : List ℚ) :
    Layout.rebalanceBelow { L with heights := x } anchor ov hts =
    L.rebalanceBelow anchor ov hts := by
  unfold Layout.rebalanceBelow
  simp only [applyOverflow_set_heights]

theorem relayoutCore_set_heights (L : Layout) (x : List ℚ) (a : Nat)
    (o : ℚ) : Layout.relayoutCore { L with heights := x } a o =
    L.relayoutCore a o := by
  unfold Layout.relayoutCore
  simp only [rebalanceAbove_set_heights, rebalanceBelow_set_heights,
    heightsOf_set_heights, getMinHeight_set_heights,
    getMaxHeight_set_heights]

theorem relayout_of_set_heights (L : Layout) (x : List ℚ) (a : Nat)
    (o : ℚ) : Layout.relayout { L with heights := x } a o =
    L.relayout a o := by
  simp only [Layout.relayout, relayoutCore_set_heights]

theorem relayout_fst_as_set (L : Layout) (a : Nat) (o : ℚ) :
    ∃ v, (L.relayout a o).1 = { L with heights := v } := by
  simp only [Layout.relayout]
  split_ifs <;> exact ⟨_, rfl⟩

theorem layout_eq_of_fields (L1 L2 : Layout) (h1 : L1.sections = L2.sections)
    (h2 : L1.collapsedState = L2.collapsedState)
    (h3 : L1.availableHeight = L2.availableHeight)
    (h4 : L1.sectionHeights = L2.sectionHeights)
    (h5 : L1.heights = L2.heights) : L1 = L2 := by
  cases L1
  cases L2
  simp_all

theorem collapse_state_bounds (L : Layout) (j : Nat) (s : Sec)
    (hget : L.sections.get? j = some s) :
    ({ L with collapsedState := setEntry L.collapsedState s.id true } :
      Layout).getMinHeight j = sectionHeight 0 ∧
    ({ L with collapsedState := setEntry L.collapsedState s.id true } :
      Layout).getMaxHeight j = sectionHeight 0 := by
  have hat : ({ L with collapsedState := setEntry L.collapsedState s.id true
      } : Layout).sectionAt j = s := sectionAt_eq_of_get? _ hget
  constructor
  · unfold Layout.getMinHeight
    rw [hat]
    unfold Layout.collapsed
    show sectionHeight (min s.count (if (List.lookup s.id
      (setEntry L.collapsedState s.id true)).getD false then 0 else 1)) = _
    rw [lookup_setEntry_self]
    simp
  · unfold Layout.getMaxHeight
    rw [hat]
    unfold Layout.collapsed
    show (if (List.lookup s.id
      (setEntry L.collapsedState s.id true)).getD false = true then
        sectionHeight 0 else 100000) = _
    rw [lookup_setEntry_self]
    simp

theorem expandSection_sections (L : Layout) (id : String) (q : ℚ) :
    (L.expandSection id q).sections = L.sections := by
  show ((Handle.setHeight _ _ q).1).sections = L.sections
  rw [setHeight_fst_sections]
  rfl

theorem expandSection_collapsedState (L : Layout) (id : String) (q : ℚ) :
    (L.expandSection id q).collapsedState =
      setEntry L.collapsedState id false := by
  show ((Handle.setHeight _ _ q).1).collapsedState = _
  rw [setHeight_fst_collapsedState]
  rfl

theorem expand_min_bound (L : Layout) (j : Nat) (s : Sec) (q : ℚ)
    (hget : L.sections.get? j = some s) :
    (L.expandSection s.id q).getMinHeight j =
      sectionHeight (min s.count 1) := by
  rw [getMinHeight_congr (L.expandSection s.id q)
    ({ L with collapsedState := setEntry L.collapsedState s.id false })
    (by rw [expandSection_sections]) (by rw [expandSection_collapsedState]) j]
  have hat : ({ L with collapsedState := setEntry L.collapsedState s.id false
      } : Layout).sectionAt j = s := sectionAt_eq_of_get? _ hget
  unfold Layout.getMinHeight
  rw [hat]
  unfold Layout.collapsed
  show sectionHeight (min s.count (if (List.lookup s.id
    (setEntry L.collapsedState s.id false)).getD false then 0 else 1)) = _
  rw [lookup_setEntry_self]
  simp

theorem updateAdopted_sections (L : Layout) (ss : List Sec)
    (avh : Option ℚ) : (L.updateAdopted ss avh).sections = ss := rfl

theorem updateAdopted_collapsedState (L : Layout) (ss : List Sec)
    (avh : Option ℚ) :
    (L.updateAdopted ss avh).collapsedState = L.collapsedState := by
  unfold Layout.updateAdopted
  split_ifs <;> rfl

theorem updateAdopted_sectionHeights (L : Layout) (ss : List Sec)
    (avh : Option ℚ) :
    (L.updateAdopted ss avh).sectionHeights = L.sectionHeights := by
  unfold Layout.updateAdopted
  split_ifs <;> rfl

theorem updateAdopted_availableHeight_none (L : Layout) (ss : List Sec) :
    (L.updateAdopted ss none).availableHeight = L.availableHeight := rfl

theorem applyNewSize_availableHeight (L : Layout) :
    (L.applyNewSize).availableHeight = L.availableHeight := rfl

theorem update_availableHeight_none (L : Layout) (ss : List Sec) :
    (L.update ss none).availableHeight = L.availableHeight := by
  simp only [Layout.update]
  split_ifs
  · rfl
  · rfl

theorem update_sections_changed (L : Layout) (ss : List Sec)
    (avh : Option ℚ) (h : ss ≠ L.sections) :
    (L.update ss avh).sections = ss := by
  simp only [Layout.update]
  split_ifs with hc
  · exfalso
    rw [Bool.and_eq_true, Bool.not_eq_true', Bool.not_eq_true'] at hc
    exact h (not_not.mp (of_decide_eq_false hc.2))
  · rfl

theorem update_none_no_change (L : Layout) (ss : List Sec)
    (h : ss = L.sections) : L.update ss none = L := by
  simp only [Layout.update]
  split_ifs with hc
  · rfl
  · exfalso
    apply hc
    rw [Bool.and_eq_true, Bool.not_eq_true', Bool.not_eq_true']
    constructor
    · rfl
    · exact decide_eq_false (fun hne => hne h)

/-! ### Claim theorems -/

/-- C1, counterexample: the claimed invariant "after any completed layout
operation the committed heights sum to
`availableHeight − (nonCollapsedSectionCount − 1) × handleHeight` within a
tolerance of 1.0" fails on a valid section list: updating an empty layout to
the single 5-item section `"a"` with available height 10 commits the sum 74
(the section's minimum height), which misses the target 10 by 64. -/
theorem claim_C1_counterexample :
    idsNodup (emptyLayout.update [⟨"a", 5⟩] (some 10)).sections ∧
    (emptyLayout.update [⟨"a", 5⟩] (some 10)).committedSum = 74 ∧
    (emptyLayout.update [⟨"a", 5⟩] (some 10)).getAvailableHeight = 10 ∧
    ¬ |(emptyLayout.update [⟨"a", 5⟩] (some 10)).committedSum -
        (emptyLayout.update [⟨"a", 5⟩] (some 10)).getAvailableHeight| ≤ 1
    := by
  refine ⟨?_, ?_⟩
  · show (List.map Sec.id
      (emptyLayout.update [⟨"a", 5⟩] (some 10)).sections).Nodup
    norm_num +decide [Layout.update, Layout.updateHeightChanged,
      Layout.updateAdopted, Layout.updateSeeded, seedFrom, setEntry,
      Layout.applyNewSize, Layout.commitHeights, commitFrom,
      Layout.redistribution, Layout.applyOverflow, Layout.applyOverflowF,
      overflowPerSection, Layout.overflowLoop, clamp, Layout.getMinHeight,
      Layout.getMaxHeight, Layout.collapsed, Layout.sectionAt, sectionHeight,
      Layout.nonCollapsedSectionCount, Layout.getAvailableHeight,
      handleHeight, Layout.storedHeight, Layout.heightsOf, emptyLayout,
      lookup_cons, lookup_nil]
  · norm_num +decide [Layout.update, Layout.updateHeightChanged,
      Layout.updateAdopted, Layout.updateSeeded, seedFrom, setEntry,
      Layout.applyNewSize, Layout.commitHeights, commitFrom,
      Layout.redistribution, Layout.applyOverflow, Layout.applyOverflowF,
      overflowPerSection, Layout.overflowLoop, clamp, Layout.getMinHeight,
      Layout.getMaxHeight, Layout.collapsed, Layout.sectionAt, sectionHeight,
      Layout.nonCollapsedSectionCount, Layout.getAvailableHeight,
      handleHeight, Layout.storedHeight, Layout.heightsOf,
      Layout.committedSum, emptyLayout, lookup_cons, lookup_nil]

/-- C1 (amended): after a redistribution operation the committed heights sum
to `availableHeight − (nonCollapsedSectionCount − 1) × handleHeight` plus
the residual overflow `r` returned by the blended `_applyOverflow` pass, and
the pass guarantees `|r| ≤ 1` unless its final recursion level had no
unclamped section left (every remaining section pinned at a bound; in that
case the sum may deviate arbitrarily, as the counterexample shows).
`setAvailableHeight`, `collapseSection`, and `update`'s redistributing
branch are exactly `_applyNewSize` runs on the correspondingly modified
state, so the equation covers them all. -/
theorem claim_C1_amended (L : Layout) (hnd : idsNodup L.sections)
    (_hpres : L.HeightsPresent) :
    (L.applyNewSize).committedSum =
      L.getAvailableHeight + (L.redistribution).1 ∧
    (|(L.redistribution).1| ≤ 1 ∨ (L.redistribution).2.2 = []) ∧
    (∀ q : ℚ, L.setAvailableHeight q =
      Layout.applyNewSize { L with availableHeight := q }) ∧
    (∀ id : String, L.collapseSection id = Layout.applyNewSize
      { L with collapsedState := setEntry L.collapsedState id true }) := by
  refine ⟨?_, ?_, fun q => rfl, fun id => rfl⟩
  · rw [committedSum_applyNewSize L hnd, redistribution_sum]
  · exact applyOverflow_stop L (-(L.getAvailableHeight - L.heightsOf.sum))
      (List.range L.sections.length) true L.heightsOf

theorem claim_C1_amended_witness :
    (Layout.applyNewSize sampleLayout).committedSum =
      sampleLayout.getAvailableHeight + (sampleLayout.redistribution).1 ∧
    (|(sampleLayout.redistribution).1| ≤ 1 ∨
      (sampleLayout.redistribution).2.2 = []) ∧
    sampleLayout.setAvailableHeight 123 =
      Layout.applyNewSize { sampleLayout with availableHeight := 123 } ∧
    sampleLayout.collapseSection "a" = Layout.applyNewSize
      { sampleLayout with
          collapsedState := setEntry sampleLayout.collapsedState "a" true } :=
  have h := claim_C1_amended sampleLayout
    (by show (List.map Sec.id sampleLayout.sections).Nodup; decide)
    (by show ∀ s ∈ sampleLayout.sections,
      (List.lookup s.id sampleLayout.sectionHeights).isSome = true; decide)
  ⟨h.1, h.2.1, h.2.2.1 123, h.2.2.2 "a"⟩

/-- C2: after every layout operation each committed section height lies in
`[_getMinHeight i, _getMaxHeight i]`, with
`minHeight = sectionHeight (min count (collapsed ? 0 : 1))`,
`maxHeight = collapsed ? sectionHeight 0 : 100000` and
`sectionHeight n = 36 + (n = 0 ? 0 : 4 + n·34)`.  The redistributing
operations establish the bounds from any prior state; a drag
(`setHeight` then `finish`) preserves them from a state that satisfies
them (which every prior operation establishes); a no-change `update`
returns the layout unmodified. -/
theorem claim_C2_bounds :
    (∀ n : Nat, sectionHeight n =
      36 + (if n = 0 then 0 else 4 + (n : ℚ) * 34)) ∧
    (∀ (L : Layout) (i : Nat), L.getMinHeight i =
      sectionHeight (min (L.sectionAt i).count
        (if L.collapsed (L.sectionAt i).id then 0 else 1)) ∧
      L.getMaxHeight i = (if L.collapsed (L.sectionAt i).id then
        sectionHeight 0 else 100000)) ∧
    (∀ L : Layout, idsNodup L.sections → (L.applyNewSize).InBounds) ∧
    (∀ (L : Layout) (q : ℚ), idsNodup L.sections →
      (L.setAvailableHeight q).InBounds) ∧
    (∀ (L : Layout) (id : String), idsNodup L.sections →
      (L.collapseSection id).InBounds) ∧
    (∀ (L : Layout) (id : String) (q : ℚ), idsNodup L.sections →
      (L.expandSection id q).InBounds) ∧
    (∀ (L : Layout) (ss : List Sec) (avh : Option ℚ), idsNodup ss →
      L.update ss avh = L ∨ (L.update ss avh).InBounds) ∧
    (∀ (L : Layout) (hdl : Handle) (q : ℚ), idsNodup L.sections →
      L.InBounds →
      ((Handle.finish hdl ((Handle.setHeight hdl L q).1)).1).InBounds) :=
  ⟨fun _ => rfl, fun _ _ => ⟨rfl, rfl⟩, inBounds_applyNewSize,
   fun L q h => inBounds_setAvailableHeight L h q,
   fun L id h => inBounds_collapseSection L h id,
   fun L id q h => inBounds_expandSection L h id q,
   inBounds_update,
   fun L hdl q hnd hIB => inBounds_drag L hnd hIB hdl q⟩

theorem claim_C2_bounds_witness :
    (sampleLayout.collapseSection "a").InBounds ∧
    ((Handle.finish (Handle.mk 1 (some 199))
      ((Handle.setHeight (Handle.mk 1 (some 199))
        (sampleLayout.collapseSection "a") 120).1)).1).InBounds :=
  have h1 : (sampleLayout.collapseSection "a").InBounds :=
    claim_C2_bounds.2.2.2.2.1 sampleLayout "a"
      (by show (List.map Sec.id sampleLayout.sections).Nodup; decide)
  ⟨h1, claim_C2_bounds.2.2.2.2.2.2.2 (sampleLayout.collapseSection "a")
    (Handle.mk 1 (some 199)) 120
    (by show (List.map Sec.id
      (sampleLayout.collapseSection "a").sections).Nodup; decide) h1⟩

/-- C3: the overflow redistribution terminates.  Fuel equal to the number of
section indices never runs out — the fueled `_applyOverflow` returns `some`,
i.e. the recursion depth of the source is bounded by the section count,
because each recursive call passes a strictly smaller `unclampedSections`
list (in non-blend mode there is no recursion at all) — and the returned
state satisfies the stopping condition: the residual overflow is at most the
1.0-unit tolerance, or the final pass had no unclamped section left to
absorb it.  `_relayout` is modelled with its single `clamped`-guarded
re-run inlined, so every `Handle.setHeight` and whole-list relayout is a
composition of terminating `_applyOverflow` runs. -/
theorem claim_C3_termination :
    ∀ (L : Layout) (ov : ℚ) (idxs : List Nat) (blend : Bool) (hs : List ℚ),
      L.applyOverflowF idxs.length ov idxs blend hs =
        some (L.applyOverflow ov idxs blend hs) ∧
      (|(L.applyOverflow ov idxs blend hs).1| ≤ 1 ∨
        (L.applyOverflow ov idxs blend hs).2.2 = []) :=
  fun L ov idxs blend hs =>
    ⟨applyOverflowF_run L ov idxs blend hs,
     applyOverflow_stop L ov idxs blend hs⟩

/-- C4, counterexample: the seed for a section without a stored height is
not `clamp(availableHeight / sectionCount, min, max)` — the source divides
`_getAvailableHeight()` (handle heights already subtracted), not the raw
available height.  Updating an empty layout to two 5-item sections with
available height 400 seeds each to `clamp(399/2, 74, 100000) = 199.5`,
while the claim's formula gives `clamp(400/2, 74, 100000) = 200`. -/
theorem claim_C4_counterexample :
    List.lookup "a" (emptyLayout.updateSeeded [⟨"a", 5⟩, ⟨"b", 5⟩]
      (some 400)) = some (399 / 2) ∧
    claimSeedValue 400 2 (sectionHeight 1) 100000 = 200 ∧
    ((399 : ℚ) / 2 ≠ 200) := by
  norm_num +decide [Layout.updateSeeded, Layout.updateAdopted,
    Layout.updateHeightChanged, seedFrom, setEntry, clamp,
    Layout.getMinHeight, Layout.getMaxHeight, Layout.collapsed,
    Layout.sectionAt, sectionHeight, Layout.nonCollapsedSectionCount,
    Layout.getAvailableHeight, handleHeight, emptyLayout, lookup_cons,
    lookup_nil, claimSeedValue]

/-- C4 (amended): in `update`, before the full redistribution runs, every
section whose stored height is falsy (absent key, or the value `0` — see
C10) is seeded to
`clamp(_getAvailableHeight() / sectionCount, minHeight(i), maxHeight(i))`
computed on the state that has already adopted the new section list and the
new finite available height; a section with a truthy (non-zero) stored
height keeps it as the starting point. -/
theorem claim_C4_amended (L : Layout) (ss : List Sec) (avh : Option ℚ)
    (j : Nat) (s : Sec) (hnd : idsNodup ss) (hget : ss.get? j = some s) :
    List.lookup s.id (L.updateSeeded ss avh) =
      (if (List.lookup s.id L.sectionHeights).getD 0 = 0 then
        some (clamp ((L.updateAdopted ss avh).getAvailableHeight /
          (ss.length : ℚ))
          ((L.updateAdopted ss avh).getMinHeight j)
          ((L.updateAdopted ss avh).getMaxHeight j))
      else List.lookup s.id L.sectionHeights) ∧
    (¬ (L.updateHeightChanged avh = false ∧ ss = L.sections) →
      L.update ss avh = Layout.applyNewSize
        { L.updateAdopted ss avh with
            sectionHeights := L.updateSeeded ss avh }) := by
  constructor
  · show List.lookup s.id (seedFrom (L.updateAdopted ss avh)
      (L.updateAdopted ss avh).getAvailableHeight
      (L.updateAdopted ss avh).sections 0
      (L.updateAdopted ss avh).sectionHeights) = _
    rw [lookup_seedFrom_get (L.updateAdopted ss avh) _
      (L.updateAdopted ss avh).sections 0
      (L.updateAdopted ss avh).sectionHeights j s
      (by rw [updateAdopted_sections]; exact hnd)
      (by rw [updateAdopted_sections]; exact hget)]
    simp only [updateAdopted_sectionHeights, updateAdopted_sections,
      Nat.zero_add]
  · intro h
    simp only [Layout.update]
    split_ifs with hc
    · exfalso
      rw [Bool.and_eq_true, Bool.not_eq_true', Bool.not_eq_true'] at hc
      exact h ⟨hc.1, not_not.mp (of_decide_eq_false hc.2)⟩
    · rfl

theorem claim_C4_amended_witness :
    (List.lookup "a" (emptyLayout.updateSeeded [⟨"a", 5⟩, ⟨"b", 5⟩]
      (some 400)) =
      (if (List.lookup "a" emptyLayout.sectionHeights).getD 0 = 0 then
        some (clamp ((emptyLayout.updateAdopted [⟨"a", 5⟩, ⟨"b", 5⟩]
          (some 400)).getAvailableHeight /
          (([⟨"a", 5⟩, ⟨"b", 5⟩] : List Sec).length : ℚ))
          ((emptyLayout.updateAdopted [⟨"a", 5⟩, ⟨"b", 5⟩]
            (some 400)).getMinHeight 0)
          ((emptyLayout.updateAdopted [⟨"a", 5⟩, ⟨"b", 5⟩]
            (some 400)).getMaxHeight 0))
      else List.lookup "a" emptyLayout.sectionHeights)) ∧
    emptyLayout.update [⟨"a", 5⟩, ⟨"b", 5⟩] (some 400) =
      Layout.applyNewSize
        { emptyLayout.updateAdopted [⟨"a", 5⟩, ⟨"b", 5⟩] (some 400) with
            sectionHeights := emptyLayout.updateSeeded
              [⟨"a", 5⟩, ⟨"b", 5⟩] (some 400) } :=
  have h := claim_C4_amended emptyLayout [⟨"a", 5⟩, ⟨"b", 5⟩] (some 400) 0
    ⟨"a", 5⟩
    (by show (List.map Sec.id [(⟨"a", 5⟩ : Sec), ⟨"b", 5⟩]).Nodup; decide)
    rfl
  ⟨h.1, h.2 (by
    intro hc
    exact absurd hc.2 (by decide))⟩

/-- C5, counterexample: `openHandle` with an id that is in no section does
not fail: `_getSectionIndex` returns `-1` (JS `findIndex` convention) and a
`Handle` with anchor `-1` and an undefined open-time height is silently
constructed. -/
theorem claim_C5_counterexample :
    sampleLayout.sections.map Sec.id = ["a", "b"] ∧
    "zzz" ∉ sampleLayout.sections.map Sec.id ∧
    sampleLayout.getSectionIndex "zzz" = -1 ∧
    sampleLayout.openHandle "zzz" = ⟨-1, none⟩ := by
  refine ⟨by decide, by decide, by decide, by decide⟩

/-- C5 (amended): for an id not present in the section list, `openHandle`
does not throw or return an error — it returns a `Handle` whose anchor is
`-1` and whose open-time height is the (possibly stale or absent)
`_sectionHeights[id]` entry; nothing rejects the unknown id. -/
theorem claim_C5_amended (L : Layout) (id : String)
    (h : ∀ s ∈ L.sections, s.id ≠ id) :
    L.openHandle id = ⟨-1, List.lookup id L.sectionHeights⟩ := by
  unfold Layout.openHandle
  rw [getSectionIndex_of_not_mem L id h]

theorem claim_C5_amended_witness :
    sampleLayout.openHandle "zzz" =
      ⟨-1, List.lookup "zzz" sampleLayout.sectionHeights⟩ :=
  claim_C5_amended sampleLayout "zzz" (by decide)

/-- C6, counterexample: `setAvailableHeight` performs no finiteness check —
line 47 assigns `this._availableHeight = newSize` unconditionally, so a
non-finite argument replaces the stored (finite) available height instead
of leaving it unchanged. -/
theorem claim_C6_counterexample :
    setAvailableHeightStored (JSNum.finite 400) JSNum.nonFinite =
      JSNum.nonFinite ∧
    setAvailableHeightStored (JSNum.finite 400) JSNum.nonFinite ≠
      JSNum.finite 400 := by
  exact ⟨rfl, by decide⟩

/-- C6 (amended): `update` with a non-finite available height is a no-op
for the height dimension — the stored available height is unchanged,
section-list changes are still adopted, and when the section list is also
unchanged the whole call is a no-op; `setAvailableHeight`, by contrast,
stores whatever it is given, finite or not, unconditionally (and always
triggers a redistribution). -/
theorem claim_C6_amended :
    (∀ (L : Layout) (ss : List Sec),
      (L.update ss none).availableHeight = L.availableHeight) ∧
    (∀ (L : Layout) (ss : List Sec), ss ≠ L.sections →
      (L.update ss none).sections = ss) ∧
    (∀ (L : Layout) (ss : List Sec), ss = L.sections →
      L.update ss none = L) ∧
    (∀ (cur ns : JSNum), setAvailableHeightStored cur ns = ns) :=
  ⟨update_availableHeight_none,
   fun L ss h => update_sections_changed L ss none h,
   update_none_no_change,
   fun _ _ => rfl⟩

theorem claim_C6_amended_witness :
    (emptyLayout.update [⟨"a", 1⟩] none).sections = [⟨"a", 1⟩] ∧
    sampleLayout.update sampleLayout.sections none = sampleLayout :=
  ⟨claim_C6_amended.2.1 emptyLayout [⟨"a", 1⟩] (by decide),
   claim_C6_amended.2.2.1 sampleLayout sampleLayout.sections rfl⟩

/-- C7: `Handle.setHeight(h)` always computes its offset from the open-time
initial height stored in the handle, never from a previous call, and never
commits; hence repeating `setHeight` with the same target height from the
state left by a first call produces exactly the same state (no drift), and
every call returns the handle itself. -/
theorem claim_C7_idempotent :
    ∀ (hdl : Handle) (L : Layout) (q : ℚ),
      Handle.setHeight hdl ((Handle.setHeight hdl L q).1) q =
        Handle.setHeight hdl L q ∧
      (Handle.setHeight hdl L q).2 = hdl := by
  intro hdl L q
  constructor
  · obtain ⟨v, hv⟩ := relayout_fst_as_set L hdl.anchor.toNat
      (q - hdl.initialHeight.getD 0)
    show Handle.setHeight hdl ((L.relayout hdl.anchor.toNat
      (q - hdl.initialHeight.getD 0)).1) q = Handle.setHeight hdl L q
    rw [hv]
    unfold Handle.setHeight
    rw [relayout_of_set_heights]
  · rfl

/-- C8: `Handle.setHeight` never writes the committed height map
(`_sectionHeights` is untouched, so an abandoned drag leaves the committed
heights as they were); `Handle.finish` commits the in-progress heights —
each section's committed height becomes `_heights[i]`; and a relayout reads
only that committed map as its baseline: the in-progress `_heights` field
has no influence on any later relayout. -/
theorem claim_C8_drag_commit :
    (∀ (hdl : Handle) (L : Layout) (q : ℚ),
      ((Handle.setHeight hdl L q).1).sectionHeights = L.sectionHeights) ∧
    (∀ (hdl : Handle) (L : Layout),
      (Handle.finish hdl L).1 = L.commitHeights) ∧
    (∀ (L : Layout) (j : Nat) (s : Sec), idsNodup L.sections →
      L.sections.get? j = some s →
      (L.commitHeights).storedHeight s.id = L.heights.getD j 0) ∧
    (∀ (L : Layout) (x : List ℚ) (a : Nat) (o : ℚ),
      Layout.relayout { L with heights := x } a o = L.relayout a o) :=
  ⟨fun _ L _ => relayout_fst_sectionHeights L _ _,
   fun _ _ => rfl,
   fun L j s hnd hget => by
    show (List.lookup s.id (commitFrom L.sections L.heights 0
      L.sectionHeights)).getD 0 = _
    rw [lookup_commitFrom_get L.sections L.heights 0 L.sectionHeights j s
      hnd hget]
    simp,
   relayout_of_set_heights⟩

theorem claim_C8_drag_commit_witness :
    (Layout.commitHeights sampleLayout).storedHeight "a" =
      sampleLayout.heights.getD 0 0 :=
  claim_C8_drag_commit.2.2.1 sampleLayout 0 ⟨"a", 3⟩
    (by show (List.map Sec.id sampleLayout.sections).Nodup; decide) rfl

/-- C9, counterexample: expanding a collapsed section does not always
restore its committed height to at least `sectionHeight 1 = 74` — for a
section with zero items the minimum height after expansion is
`sectionHeight 0 = 36`, and `expandSection "a" 36` on a collapsed zero-item
section leaves its committed height at 36 < 74. -/
theorem claim_C9_counterexample :
    collapsedLayout.sections.get? 0 = some ⟨"a", 0⟩ ∧
    collapsedLayout.collapsed "a" = true ∧
    idsNodup collapsedLayout.sections ∧
    ((collapsedLayout.expandSection "a" 36).storedHeight "a" = 36 ∧
     ¬ sectionHeight 1 ≤
       (collapsedLayout.expandSection "a" 36).storedHeight "a") := by
  refine ⟨rfl, rfl,
    by show (List.map Sec.id collapsedLayout.sections).Nodup; decide, ?_⟩
  norm_num +decide [Layout.expandSection, Layout.applyNewSize,
    Layout.commitHeights, commitFrom, Layout.redistribution,
    Layout.applyOverflow, Layout.applyOverflowF, overflowPerSection,
    Layout.overflowLoop, clamp, Layout.getMinHeight, Layout.getMaxHeight,
    Layout.collapsed, Layout.sectionAt, sectionHeight,
    Layout.nonCollapsedSectionCount, Layout.getAvailableHeight, handleHeight,
    Layout.storedHeight, Layout.heightsOf, collapsedLayout, lookup_cons,
    lookup_nil, setEntry, Layout.openHandle, Layout.getSectionIndex,
    findIndexO, Handle.setHeight, Handle.finish, Layout.relayout,
    Layout.relayoutCore, Layout.rebalanceAbove, Layout.rebalanceBelow]

/-- C9 (amended): `collapseSection(id)` drives the section's committed
height to exactly `sectionHeight 0 = 36` (its collapsed minimum = maximum),
and expanding restores the committed height to at least
`sectionHeight (min count 1)` — which is `sectionHeight 1 = 74` whenever
the section has at least one item, but only `sectionHeight 0 = 36` for a
zero-item section (the counterexample). -/
theorem claim_C9_amended (L : Layout) (j : Nat) (s : Sec)
    (hnd : idsNodup L.sections) (hget : L.sections.get? j = some s) :
    (L.collapseSection s.id).storedHeight s.id = sectionHeight 0 ∧
    (∀ q : ℚ, sectionHeight (min s.count 1) ≤
      (L.expandSection s.id q).storedHeight s.id) := by
  have hj : j < L.sections.length := lt_of_get?_eq_some hget
  constructor
  · have hIB := inBounds_collapseSection L hnd s.id
    have hIBj := hIB j hj
    have hat : (L.collapseSection s.id).sectionAt j = s :=
      sectionAt_eq_of_get? (L.collapseSection s.id) hget
    rw [hat] at hIBj
    have hbounds := collapse_state_bounds L j s hget
    have hmin : (L.collapseSection s.id).getMinHeight j = sectionHeight 0 :=
      by
      rw [show (L.collapseSection s.id).getMinHeight j =
        ({ L with collapsedState := setEntry L.collapsedState s.id true } :
          Layout).getMinHeight j from rfl, hbounds.1]
    have hmax : (L.collapseSection s.id).getMaxHeight j = sectionHeight 0 :=
      by
      rw [show (L.collapseSection s.id).getMaxHeight j =
        ({ L with collapsedState := setEntry L.collapsedState s.id true } :
          Layout).getMaxHeight j from rfl, hbounds.2]
    exact le_antisymm (hmax ▸ hIBj.2) (hmin ▸ hIBj.1)
  · intro q
    have hIB := inBounds_expandSection L hnd s.id q
    have hj' : j < (L.expandSection s.id q).sections.length := by
      rw [expandSection_sections]
      exact hj
    have hIBj := hIB j hj'
    have hat : (L.expandSection s.id q).sectionAt j = s := by
      apply sectionAt_eq_of_get?
      rw [expandSection_sections]
      exact hget
    rw [hat] at hIBj
    have hmin := expand_min_bound L j s q hget
    rw [hmin] at hIBj
    exact hIBj.1

theorem claim_C9_amended_witness :
    (sampleLayout.collapseSection "a").storedHeight "a" = sectionHeight 0 ∧
    sectionHeight (min 3 1) ≤
      (sampleLayout.expandSection "a" 100).storedHeight "a" :=
  have h := claim_C9_amended sampleLayout 0 ⟨"a", 3⟩
    (by show (List.map Sec.id sampleLayout.sections).Nodup; decide) rfl
  ⟨h.1, h.2 100⟩

/-- C10: `update`'s seeding test is by JS truthiness, not key presence — a
section whose stored height is the number `0` is treated as unseeded and
reset to the clamped even share, while a section with any non-zero stored
height keeps that value as its starting point. -/
theorem claim_C10_truthiness (L : Layout) (ss : List Sec) (avh : Option ℚ)
    (j : Nat) (s : Sec) (hnd : idsNodup ss) (hget : ss.get? j = some s) :
    (List.lookup s.id L.sectionHeights = some 0 →
      List.lookup s.id (L.updateSeeded ss avh) =
        some (clamp ((L.updateAdopted ss avh).getAvailableHeight /
          (ss.length : ℚ)) ((L.updateAdopted ss avh).getMinHeight j)
          ((L.updateAdopted ss avh).getMaxHeight j))) ∧
    (∀ v : ℚ, List.lookup s.id L.sectionHeights = some v → v ≠ 0 →
      List.lookup s.id (L.updateSeeded ss avh) =
        List.lookup s.id L.sectionHeights) := by
  have key : List.lookup s.id (L.updateSeeded ss avh) =
      (if (List.lookup s.id L.sectionHeights).getD 0 = 0 then
        some (clamp ((L.updateAdopted ss avh).getAvailableHeight /
          (ss.length : ℚ))
          ((L.updateAdopted ss avh).getMinHeight j)
          ((L.updateAdopted ss avh).getMaxHeight j))
      else List.lookup s.id L.sectionHeights) := by
    show List.lookup s.id (seedFrom (L.updateAdopted ss avh)
      (L.updateAdopted ss avh).getAvailableHeight
      (L.updateAdopted ss avh).sections 0
      (L.updateAdopted ss avh).sectionHeights) = _
    rw [lookup_seedFrom_get (L.updateAdopted ss avh) _
      (L.updateAdopted ss avh).sections 0
      (L.updateAdopted ss avh).sectionHeights j s
      (by rw [updateAdopted_sections]; exact hnd)
      (by rw [updateAdopted_sections]; exact hget)]
    simp only [updateAdopted_sectionHeights, updateAdopted_sections,
      Nat.zero_add]
  constructor
  · intro h0
    rw [key, h0]
    simp
  · intro v hv hne
    rw [key, hv]
    simp [hne]

theorem claim_C10_truthiness_witness :
    List.lookup "a" (zeroSeedLayout.updateSeeded [⟨"a", 1⟩, ⟨"b", 1⟩]
      (some 100)) =
      some (clamp ((zeroSeedLayout.updateAdopted [⟨"a", 1⟩, ⟨"b", 1⟩]
        (some 100)).getAvailableHeight /
        (([⟨"a", 1⟩, ⟨"b", 1⟩] : List Sec).length : ℚ))
        ((zeroSeedLayout.updateAdopted [⟨"a", 1⟩, ⟨"b", 1⟩]
          (some 100)).getMinHeight 0)
        ((zeroSeedLayout.updateAdopted [⟨"a", 1⟩, ⟨"b", 1⟩]
          (some 100)).getMaxHeight 0)) ∧
    List.lookup "b" (zeroSeedLayout.updateSeeded [⟨"a", 1⟩, ⟨"b", 1⟩]
      (some 100)) = List.lookup "b" zeroSeedLayout.sectionHeights :=
  ⟨(claim_C10_truthiness zeroSeedLayout [⟨"a", 1⟩, ⟨"b", 1⟩] (some 100) 0
      ⟨"a", 1⟩
      (by show (List.map Sec.id [(⟨"a", 1⟩ : Sec), ⟨"b", 1⟩]).Nodup; decide)
      rfl).1 rfl,
   (claim_C10_truthiness zeroSeedLayout [⟨"a", 1⟩, ⟨"b", 1⟩] (some 100) 1
      ⟨"b", 1⟩
      (by show (List.map Sec.id [(⟨"a", 1⟩ : Sec), ⟨"b", 1⟩]).Nodup; decide)
      rfl).2 50 rfl (by norm_num)⟩

end RoomSubList2
